import Mathlib

set_option linter.unusedTactic false
set_option linter.unusedVariables false
set_option linter.unreachableTactic false
set_option linter.unnecessarySeqFocus false
set_option linter.unnecessarySimpa false
set_option maxHeartbeats 1600000
set_option maxRecDepth 8000

/-!
Verification of the Ethereum contract-ABI codec (type model, encoder,
decoder, argument-list codec) of this repository, as a shallow embedding
in Lean 4.

Conventions of the embedding:
* Go byte slices are `List Nat` with entries below 256; `len(x)` is
  `List.length`.  Go's `x[i:j]` becomes `(x.drop i).take (j - i)`.
* Go `int` values that are provably non-negative in the source
  (sizes, offsets, indices) are `Nat`.  Where the source manipulates
  `big.Int` values the embedding uses unbounded `Nat`/`Int` and the
  63-bit / 256-bit checks of the source are kept explicit.
* `reflect.Value` arguments become the tagged value tree `Value` below;
  a Go value of type `common.Address` is `Value.vAddress` (20 bytes), a
  `[N]byte` array is `Value.vFixedBytes`, a `[24]byte` function value is
  `Value.vFunction`.  Reflection-based struct-field lookup for tuples
  (`mapArgNamesToStructFields` + `FieldByName`) is modelled positionally:
  the i-th tuple value corresponds to the i-th tuple element type.
* Errors are the inductive `AbiErr`; each constructor stands for one
  distinct error message family of the source.
-/

namespace EthAbi


/-! ### Byte-string utilities (encoding/binary, common, common/math) -/

/-- Big-endian bytes of `n % 256 ^ k`, always exactly `k` bytes.
`beBytes 32 n` is `math.U256Bytes` / `math.PaddedBigBytes(…, 32)` of a
non-negative integer. -/
def beBytes : Nat → Nat → List Nat
  | 0, _ => []
  | k + 1, n => beBytes k (n / 256) ++ [n % 256]

/-- The unsigned big integer denoted by a big-endian byte string:
`new(big.Int).SetBytes(bs)`. -/
def deBytes (bs : List Nat) : Nat := bs.foldl (fun a b => a * 256 + b) 0

/-- Go's two's-complement truncation `math.U256` of a signed integer:
the value modulo `2 ^ 256` as a non-negative integer. -/
def u256OfInt (i : Int) : Nat := (i % ((2 : Int) ^ 256)).toNat

/-- common.LeftPadBytes: left-pad with zeros to length `l`; a longer
slice is returned unchanged. -/
def leftPad (bs : List Nat) (l : Nat) : List Nat :=
  if l ≤ bs.length then bs else List.replicate (l - bs.length) 0 ++ bs

/-- common.RightPadBytes: right-pad with zeros to length `l`; a longer
slice is returned unchanged. -/
def rightPad (bs : List Nat) (l : Nat) : List Nat :=
  if l ≤ bs.length then bs else bs ++ List.replicate (l - bs.length) 0

/-! ### The Type model (type.go)

`Type` of the source is the triple (T, Size, Elem/TupleElems); the
constructible kinds (the ones `NewType` produces, which are exactly the
kinds of the specification's data model) are the constructors below.
`Size` is the bit width for `int`/`uint`, the byte length for
`fixedBytes` and the element count for `array`; `address` (size 20) and
`function` (size 24) have fixed sizes carried by the kind itself. -/

inductive AbiType where
  | int (size : Nat)
  | uint (size : Nat)
  | bool
  | string
  | slice (elem : AbiType)
  | array (size : Nat) (elem : AbiType)
  | tuple (elems : List AbiType)
  | address
  | fixedBytes (size : Nat)
  | bytes
  | function

mutual

/-- isDynamicType (type.go): a type is dynamic iff it is `string`,
`bytes`, `T[]` for any `T`, `T[k]` for dynamic `T`, or a tuple with at
least one dynamic element.  The tuple case is the source's loop over
`TupleElems`. -/
def isDynamicType : AbiType → Bool
  | .tuple elems => anyDynamic elems
  | .string => true
  | .bytes => true
  | .slice _ => true
  | .array _ elem => isDynamicType elem
  | _ => false

/-- The loop body of `isDynamicType` over a tuple's element list. -/
def anyDynamic : List AbiType → Bool
  | [] => false
  | e :: rest => isDynamicType e || anyDynamic rest

end


/-- requiresLengthPrefix (type.go): whether the encoding starts with a
32-byte length word (string, dynamic bytes, slice). -/
def isLengthPrefixed (t : AbiType) : Bool :=
  match t with
  | .string => true
  | .bytes => true
  | .slice _ => true
  | _ => false

mutual

/-- getTypeSize (type.go): the number of bytes the type occupies in the
head section of an encoding.  Static arrays of arrays/tuples multiply
recursively, other static arrays are `size * 32`, static tuples sum
their elements, everything else (dynamic types and elementary static
types) occupies one 32-byte word. -/
def getTypeSize (t : AbiType) : Nat :=
  match t with
  | .array sz elem =>
    if isDynamicType elem then 32
    else
      match elem with
      | .array _ _ | .tuple _ => sz * getTypeSize elem
      | _ => sz * 32
  | .tuple elems =>
    if isDynamicType (.tuple elems) then 32 else sumTypeSizes elems
  | _ => 32

/-- The summation loop of `getTypeSize` over a static tuple's elements. -/
def sumTypeSizes : List AbiType → Nat
  | [] => 0
  | e :: rest => getTypeSize e + sumTypeSizes rest

end


/-! ### Specification-side definitions

These definitions transcribe the specification's own wording of
dynamic-type classification (§4.2) and of head sizes, to be compared
with the source translations above. -/

/-- Helper naming the claim's side condition "the element is itself an
Array or Tuple". -/
def isArrayOrTuple (t : AbiType) : Bool :=
  match t with
  | .array _ _ => true
  | .tuple _ => true
  | _ => false

/-- Dynamic classification as worded by the spec: String, Bytes, Slice
of anything; Array whose element is dynamic; Tuple containing at least
one dynamic field (folded over the fields). -/
def isDynamicSpec (t : AbiType) : Bool :=
  match t with
  | .string => true
  | .bytes => true
  | .slice _ => true
  | .array _ e => isDynamicSpec e
  | .tuple [] => false
  | .tuple (e :: rest) => isDynamicSpec e || isDynamicSpec (.tuple rest)
  | _ => false
termination_by sizeOf t
decreasing_by all_goals (simp_wf; try omega)

/-- Head sizes as worded by the claim: 32 for every dynamic type and
every elementary static type; a static array is `size` times the
element's size when the element is itself an array or tuple and
`size * 32` otherwise; a static tuple is the sum of its fields' sizes
(folded over the fields). -/
def getTypeSizeSpec (t : AbiType) : Nat :=
  if isDynamicSpec t then 32
  else
    match t with
    | .array sz e => if isArrayOrTuple e then sz * getTypeSizeSpec e else sz * 32
    | .tuple [] => 0
    | .tuple (e :: rest) => getTypeSizeSpec e + getTypeSizeSpec (.tuple rest)
    | _ => 32
termination_by sizeOf t
decreasing_by all_goals (simp_wf; try omega)

/-! ### Values

Tagged value tree standing for the `reflect.Value`s the codec consumes
and the `interface{}` values it produces.  Decoded machine integers
(`uint8..uint64`, `int8..int64`) and `*big.Int` values are both
represented by `vUint`/`vInt` — this is the big-integer versus
machine-integer normalization the round-trip claim allows — and decoded
slices and arrays are both `vList`. -/

inductive Value where
  | vUint (n : Nat)
  | vInt (i : Int)
  | vBool (b : Bool)
  | vString (s : List Nat)
  | vBytes (bs : List Nat)
  | vAddress (bs : List Nat)
  | vFixedBytes (bs : List Nat)
  | vFunction (bs : List Nat)
  | vList (vs : List Value)
  | vTuple (vs : List Value)

/-- Error taxonomy; one constructor per error message family of the
source (pack.go, type.go, bind.go). -/
inductive AbiErr where
  | typeMismatch          -- typeCheck / sliceTypeCheck mismatch, and the
                          -- "invalid type in call" guards of the readers
  | unknownType           -- packElement / toGoType unknown-type default
  | bytesNotSlice         -- "bytes type is neither slice nor array"
  | fieldNotFound         -- tuple field not found in the given struct
  | badUint8 | badUint16 | badUint32 | badUint64
  | badInt8 | badInt16 | badInt32 | badInt64
  | badBool               -- "improperly encoded boolean value"
  | badFunctionEnc        -- "got improperly encoded function type"
  | lengthInsufficient    -- "cannot marshal in to go type: length insufficient"
  | offsetOverBoundary    -- "offset … would go over slice boundary"
  | offsetLargerThanInt64 -- "abi offset larger than int64"
  | lengthLargerThanInt64 -- "abi: length larger than int64"
  | emptyInput            -- "attempting to unmarshal an empty string while arguments are expected"
  | arityMismatch         -- "argument count mismatch: got %d for %d"
  | invalidArgType        -- "invalid arg type in abi"
  | invalidTypeStr        -- "invalid type '%v'"
  | varSizeParse          -- "error parsing variable size"
  | unsupportedArgType    -- "unsupported arg type"
  | invalidArrayFormat    -- "invalid formatting of array type"
  | anonymousField        -- "purely anonymous or underscored field is not supported"
  | invalidFieldName      -- "field %d has invalid name"
deriving DecidableEq

mutual

/-- Conformance of a value to a type: the value is one that a Go caller
can legally hold at the Go type `t.GetType()` and that lies in the ABI
range of `t` (bit-width bounds for integers, exact byte lengths for
address / fixed bytes / function, declared element count for arrays,
all byte entries below 256). -/
def conforms (v : Value) (t : AbiType) : Bool :=
  match v with
  | .vUint n =>
    match t with
    | .uint s => decide (n < 2 ^ s)
    | _ => false
  | .vInt i =>
    match t with
    | .int s => decide (-((2 : Int) ^ (s - 1)) ≤ i) && decide (i < (2 : Int) ^ (s - 1))
    | _ => false
  | .vBool _ =>
    match t with
    | .bool => true
    | _ => false
  | .vString s =>
    match t with
    | .string => s.all (fun b => b < 256)
    | _ => false
  | .vBytes bs =>
    match t with
    | .bytes => bs.all (fun b => b < 256)
    | _ => false
  | .vAddress bs =>
    match t with
    | .address => decide (bs.length = 20) && bs.all (fun b => b < 256)
    | _ => false
  | .vFixedBytes bs =>
    match t with
    | .fixedBytes sz => decide (bs.length = sz) && bs.all (fun b => b < 256)
    | _ => false
  | .vFunction bs =>
    match t with
    | .function => decide (bs.length = 24) && bs.all (fun b => b < 256)
    | _ => false
  | .vList vs =>
    match t with
    | .slice e => conformsAll vs e
    | .array sz e => decide (vs.length = sz) && conformsAll vs e
    | _ => false
  | .vTuple vs =>
    match t with
    | .tuple ts => conformsZip vs ts
    | _ => false

/-- All elements of a list conform to one element type. -/
def conformsAll : List Value → AbiType → Bool
  | [], _ => true
  | v :: vs, e => conforms v e && conformsAll vs e

/-- Values conform pointwise to a tuple's element types (equal lengths). -/
def conformsZip : List Value → List AbiType → Bool
  | [], [] => true
  | v :: vs, t :: ts => conforms v t && conformsZip vs ts
  | _, _ => false

end


mutual

/-- The data-model invariants of the specification (§3): integer bit
sizes are multiples of 8 in 8..256, fixed-bytes sizes are 1..32, array
element counts are positive. -/
def wfType : AbiType → Bool
  | .int s => decide (0 < s) && decide (s ≤ 256) && decide (s % 8 = 0)
  | .uint s => decide (0 < s) && decide (s ≤ 256) && decide (s % 8 = 0)
  | .fixedBytes s => decide (0 < s) && decide (s ≤ 32)
  | .array sz e => decide (0 < sz) && wfType e
  | .slice e => wfType e
  | .tuple es => wfTypeAll es
  | _ => true

def wfTypeAll : List AbiType → Bool
  | [] => true
  | e :: rest => wfType e && wfTypeAll rest

end


mutual

/-- No zero-field tuple occurs anywhere in the type: every subtree
packs to at least one 32-byte word. -/
def noZeroSized : AbiType → Bool
  | .tuple [] => false
  | .tuple (e :: rest) => noZeroSized e && noZeroSized (.tuple rest)
  | .slice e => noZeroSized e
  | .array _ e => noZeroSized e
  | _ => true

end


/-! ### Encoder (pack.go, type.go, bind.go) -/

/-- packBytesSlice: a 32-byte length word followed by the content
right-padded to the next 32-byte boundary. -/
def packBytesSlice (bs : List Nat) (l : Nat) : List Nat :=
  beBytes 32 l ++ rightPad bs ((l + 31) / 32 * 32)

/-- The byte contents of the three byte-array-shaped value kinds (the
Go values whose reflect kind is `Array` of bytes). -/
def byteContents : Value → List Nat
  | .vAddress bs => bs
  | .vFixedBytes bs => bs
  | .vFunction bs => bs
  | _ => []

/-- typeCheck / sliceTypeCheck (unnamed part: type checking) modelled on
the tagged value tree.  Go compares reflect *kinds*: any fixed byte
array value (kind `Array`) passes for `address`, `fixedBytes` and
`function` (only `fixedBytes` additionally compares the length), any
slice-kinded value passes for `bytes`, and a fixed array's declared
length is compared against the value's length. -/
def typeCheckV (t : AbiType) (v : Value) : Except AbiErr Unit :=
  match t, v with
  | .slice _, .vList _ => .ok ()
  | .array sz _, .vList vs => if vs.length = sz then .ok () else .error .typeMismatch
  | .uint _, .vUint _ => .ok ()
  | .int _, .vInt _ => .ok ()
  | .bool, .vBool _ => .ok ()
  | .string, .vString _ => .ok ()
  | .bytes, .vBytes _ => .ok ()
  | .bytes, .vList _ => .ok ()
  | .address, .vAddress _ => .ok ()
  | .address, .vFixedBytes _ => .ok ()
  | .address, .vFunction _ => .ok ()
  | .fixedBytes sz, .vAddress bs => if bs.length = sz then .ok () else .error .typeMismatch
  | .fixedBytes sz, .vFixedBytes bs => if bs.length = sz then .ok () else .error .typeMismatch
  | .fixedBytes sz, .vFunction bs => if bs.length = sz then .ok () else .error .typeMismatch
  | .function, .vAddress _ => .ok ()
  | .function, .vFixedBytes _ => .ok ()
  | .function, .vFunction _ => .ok ()
  | .tuple _, .vTuple _ => .ok ()
  | _, _ => .error .typeMismatch

/-- packElement (pack.go): 32-byte big-endian words for numbers and
bools, left padding for addresses, right padding for fixed bytes and
function values, length-prefixed padded content for strings and bytes.
`packNum` of a non-negative machine integer or `big.Int` is
`beBytes 32`; of a negative `big.Int` it is the two's complement
`u256OfInt`.  The negative-`big.Int`-into-uint sign check of the source
cannot fire here because uint values are already non-negative `Nat`s. -/
def packElement (t : AbiType) (v : Value) : Except AbiErr (List Nat) :=
  match t, v with
  | .uint _, .vUint n => .ok (beBytes 32 n)
  | .int _, .vInt i => .ok (beBytes 32 (u256OfInt i))
  | .string, .vString s => .ok (packBytesSlice s s.length)
  | .address, .vAddress bs => .ok (leftPad bs 32)
  | .address, .vFixedBytes bs => .ok (leftPad bs 32)
  | .address, .vFunction bs => .ok (leftPad bs 32)
  | .bool, .vBool b => .ok (beBytes 32 (if b then 1 else 0))
  | .bytes, .vBytes bs => .ok (packBytesSlice bs bs.length)
  | .bytes, .vList _ => .error .bytesNotSlice
  | .fixedBytes _, .vAddress bs => .ok (rightPad bs 32)
  | .fixedBytes _, .vFixedBytes bs => .ok (rightPad bs 32)
  | .fixedBytes _, .vFunction bs => .ok (rightPad bs 32)
  | .function, .vAddress bs => .ok (rightPad bs 32)
  | .function, .vFixedBytes bs => .ok (rightPad bs 32)
  | .function, .vFunction bs => .ok (rightPad bs 32)
  | _, _ => .error .unknownType

mutual

/-- Type.pack (type.go): type-check, then either pack an element in
place, or run the head/tail scheme over slice/array elements or tuple
fields.  A slice is preceded by a 32-byte length word.  The starting
tail offset is `getTypeSize(elem) * len` for slices and arrays and the
sum of the field head sizes for tuples.  The source switches on `t.T`
only and accesses the value through reflection; the nested value
matches model those reflection accesses (a value of the wrong shape
cannot reach them because `typeCheckV` runs first). -/
def packValue (t : AbiType) (v : Value) : Except AbiErr (List Nat) :=
  match typeCheckV t v with
  | .error e => .error e
  | .ok _ =>
    match t with
    | .slice e =>
      match v with
      | .vList vs =>
        match packElems e vs (getTypeSize e * vs.length) with
        | .error err => .error err
        | .ok ht => .ok (beBytes 32 vs.length ++ ht.1 ++ ht.2)
      | _ => packElement t v
    | .array _ e =>
      match v with
      | .vList vs =>
        match packElems e vs (getTypeSize e * vs.length) with
        | .error err => .error err
        | .ok ht => .ok (ht.1 ++ ht.2)
      | _ => packElement t v
    | .tuple es =>
      match v with
      | .vTuple vs =>
        match packFields es vs (sumTypeSizes es) with
        | .error err => .error err
        | .ok ht => .ok (ht.1 ++ ht.2)
      | _ => packElement t v
    | .int _ => packElement t v
    | .uint _ => packElement t v
    | .bool => packElement t v
    | .string => packElement t v
    | .address => packElement t v
    | .fixedBytes _ => packElement t v
    | .bytes => packElement t v
    | .function => packElement t v
termination_by (sizeOf t, 0)
decreasing_by all_goals (simp_wf; try omega)

/-- The element loop of `Type.pack` for slices and arrays: returns the
head section and the tail section.  Static elements are appended to the
head in place; dynamic elements contribute a 32-byte offset word to the
head and their encoding to the tail, advancing the offset. -/
def packElems (e : AbiType) (vs : List Value) (offset : Nat) :
    Except AbiErr (List Nat × List Nat) :=
  match vs with
  | [] => .ok ([], [])
  | v :: rest =>
    match packValue e v with
    | .error err => .error err
    | .ok val =>
      if isDynamicType e then
        match packElems e rest (offset + val.length) with
        | .error err => .error err
        | .ok ht => .ok (beBytes 32 offset ++ ht.1, val ++ ht.2)
      else
        match packElems e rest offset with
        | .error err => .error err
        | .ok ht => .ok (val ++ ht.1, ht.2)
termination_by (sizeOf e, sizeOf vs + 1)
decreasing_by all_goals (simp_wf; try omega)

/-- The field loop of `Type.pack` for tuples (and of `Arguments.Pack`,
which uses the same head/tail scheme at the argument-list level): values
correspond positionally to the element types; a missing field is the
source's "field not found in the given struct" error. -/
def packFields (es : List AbiType) (vs : List Value) (offset : Nat) :
    Except AbiErr (List Nat × List Nat) :=
  match es, vs with
  | [], _ => .ok ([], [])
  | _ :: _, [] => .error .fieldNotFound
  | e :: es', v :: vs' =>
    match packValue e v with
    | .error err => .error err
    | .ok val =>
      if isDynamicType e then
        match packFields es' vs' (offset + val.length) with
        | .error err => .error err
        | .ok ht => .ok (beBytes 32 offset ++ ht.1, val ++ ht.2)
      else
        match packFields es' vs' offset with
        | .error err => .error err
        | .ok ht => .ok (val ++ ht.1, ht.2)
termination_by (sizeOf es, 0)
decreasing_by all_goals (simp_wf; try omega)

end


/-- Argument (bind.go): name, type, and the indexed flag of event
fields. -/
structure Argument where
  name : List Char
  type : AbiType
  indexed : Bool

/-- NonIndexed (bind.go): the arguments with indexed ones filtered out. -/
def nonIndexed (args : List Argument) : List Argument :=
  args.filter (fun a => !a.indexed)

/-- The `inputOffset` initialisation of Arguments.Pack: the sum of all
arguments' head sizes (indexed ones included). -/
def argsHeadSize : List Argument → Nat
  | [] => 0
  | a :: rest => getTypeSize a.type + argsHeadSize rest

/-- Arguments.Pack (bind.go): arity check against the full argument
list (indexed arguments included), then the head/tail scheme over all
arguments — the same loop as the tuple case of `Type.pack`, so it is
modelled by `packFields` over all the argument types. -/
def argumentsPack (args : List Argument) (vals : List Value) : Except AbiErr (List Nat) :=
  if vals.length ≠ args.length then .error .arityMismatch
  else
    match packFields (args.map (fun a => a.type)) vals (argsHeadSize args) with
    | .error e => .error e
    | .ok ht => .ok (ht.1 ++ ht.2)

/-! ### Decoder (type.go unpack half, bind.go) -/

/-- ReadInteger (type.go): interpret the 32-byte word as an unsigned
big integer; for signed types detect two's-complement negativity via
bit 255 and convert by `ret - 2^256`; then range-check the standard
machine widths 8/16/32/64 (representability in 64 bits first, then
the width bound), returning the improperly-encoded error on failure;
all other widths (including 256) are returned unchecked as big
integers. -/
def readInteger (t : AbiType) (b : List Nat) : Except AbiErr Value :=
  match t with
  | .uint size =>
    let ret := deBytes b
    let isu64 := decide (ret < 2 ^ 64)
    if size = 8 then
      if !isu64 || decide (255 < ret) then .error .badUint8 else .ok (.vUint ret)
    else if size = 16 then
      if !isu64 || decide (65535 < ret) then .error .badUint16 else .ok (.vUint ret)
    else if size = 32 then
      if !isu64 || decide (4294967295 < ret) then .error .badUint32 else .ok (.vUint ret)
    else if size = 64 then
      if !isu64 then .error .badUint64 else .ok (.vUint ret)
    else .ok (.vUint ret)
  | .int size =>
    let ret0 := deBytes b
    let ret : Int := if ret0.testBit 255 then (ret0 : Int) - 2 ^ 256 else (ret0 : Int)
    let isi64 := decide (-((2 : Int) ^ 63) ≤ ret) && decide (ret < 2 ^ 63)
    if size = 8 then
      if !isi64 || decide (ret < -128) || decide (127 < ret) then .error .badInt8
      else .ok (.vInt ret)
    else if size = 16 then
      if !isi64 || decide (ret < -32768) || decide (32767 < ret) then .error .badInt16
      else .ok (.vInt ret)
    else if size = 32 then
      if !isi64 || decide (ret < -2147483648) || decide (2147483647 < ret) then .error .badInt32
      else .ok (.vInt ret)
    else if size = 64 then
      if !isi64 then .error .badInt64 else .ok (.vInt ret)
    else .ok (.vInt ret)
  | _ => .error .unknownType

/-- readBool (type.go): the first 31 bytes of the word must be zero and
the last byte 0 or 1. -/
def readBool (word : List Nat) : Except AbiErr Value :=
  if (word.take 31).all (fun b => b == 0) then
    match word.getD 31 0 with
    | 0 => .ok (.vBool false)
    | 1 => .ok (.vBool true)
    | _ => .error .badBool
  else .error .badBool

/-- readFunctionType (type.go): the trailing 8 bytes of the word must
be zero (a function value occupies only 24 bytes); the type guard of
the source is established by the caller's match. -/
def readFunctionType (word : List Nat) : Except AbiErr Value :=
  if deBytes ((word.drop 24).take 8) ≠ 0 then .error .badFunctionEnc
  else .ok (.vFunction (word.take 24))

/-- ReadFixedBytes (type.go): copy the first `sz` bytes of the word into
a fresh `[sz]byte` array; the type guard of the source is established by
the caller's match. -/
def readFixedBytes (sz : Nat) (word : List Nat) : Except AbiErr Value :=
  .ok (.vFixedBytes (word.take sz))

/-- lengthPrefixPointsTo (type.go): read the offset word at `index` as
an unsigned big integer, add 32, require the result within the output
and 63-bit-representable; read the length word the offset points at,
require offset+32+length within the output and 63-bit-representable;
return the content start and the length. -/
def lengthPrefixPointsTo (index : Nat) (output : List Nat) : Except AbiErr (Nat × Nat) :=
  let bigOffsetEnd := deBytes ((output.drop index).take 32) + 32
  if bigOffsetEnd > output.length then .error .offsetOverBoundary
  else if 2 ^ 63 ≤ bigOffsetEnd then .error .offsetLargerThanInt64
  else
    let lengthBig := deBytes ((output.drop (bigOffsetEnd - 32)).take 32)
    let totalSize := bigOffsetEnd + lengthBig
    if 2 ^ 63 ≤ totalSize then .error .lengthLargerThanInt64
    else if totalSize > output.length then .error .lengthInsufficient
    else .ok (bigOffsetEnd, lengthBig)

/-- tuplePointsTo (type.go): read the offset word of a dynamic tuple as
an unsigned big integer; require it at most the output length and
63-bit-representable. -/
def tuplePointsTo (index : Nat) (output : List Nat) : Except AbiErr Nat :=
  let offset := deBytes ((output.drop index).take 32)
  if offset > output.length then .error .offsetOverBoundary
  else if 2 ^ 63 ≤ offset then .error .offsetLargerThanInt64
  else .ok offset

/-- The "virtual argument" advance shared by forTupleUnpack and
Arguments.UnpackValues: the source keeps a running field index plus a
`virtualArgs` correction (`+= getTypeSize/32 - 1` for static arrays and
static tuples); the embedding fuses both counters into one head-slot
counter, advanced by `getTypeSize/32` slots for static arrays/tuples
and by one slot otherwise. -/
def slotAdvance (t : AbiType) (slot : Nat) : Nat :=
  match t with
  | .array _ _ => if isDynamicType t then slot + 1 else slot + getTypeSize t / 32
  | .tuple _ => if isDynamicType t then slot + 1 else slot + getTypeSize t / 32
  | _ => slot + 1

mutual

/-- toGoType (type.go): require 32 readable bytes at `index`, then
decode by kind.  Length-prefixed kinds (string, bytes, slice) resolve
their offset and length words through `lengthPrefixPointsTo`; dynamic
tuples resolve their offset through `tuplePointsTo`; an array of
dynamic elements reads a 64-bit offset from the low 8 bytes of its head
word and bounds-checks it against the output length; everything else
reads the 32-byte word in place. -/
def unpackAt (index : Nat) (t : AbiType) (output : List Nat) : Except AbiErr Value :=
  if index + 32 > output.length then .error .lengthInsufficient
  else
    match t with
    | .tuple es =>
      if isDynamicType (.tuple es) then
        match tuplePointsTo index output with
        | .error e => .error e
        | .ok b =>
          match unpackTuple es (output.drop b) 0 with
          | .error e => .error e
          | .ok vs => .ok (.vTuple vs)
      else
        match unpackTuple es (output.drop index) 0 with
        | .error e => .error e
        | .ok vs => .ok (.vTuple vs)
    | .slice e =>
      match lengthPrefixPointsTo index output with
      | .error err => .error err
      | .ok bl =>
        match unpackElems e (output.drop bl.1) bl.2 with
        | .error err => .error err
        | .ok vs => .ok (.vList vs)
    | .array sz e =>
      if isDynamicType e then
        let word := (output.drop index).take 32
        let offset := deBytes (word.drop 24)
        if offset > output.length then .error .offsetOverBoundary
        else
          match unpackElems e (output.drop offset) sz with
          | .error err => .error err
          | .ok vs => .ok (.vList vs)
      else
        match unpackElems e (output.drop index) sz with
        | .error err => .error err
        | .ok vs => .ok (.vList vs)
    | .string =>
      match lengthPrefixPointsTo index output with
      | .error err => .error err
      | .ok bl => .ok (.vString ((output.drop bl.1).take bl.2))
    | .bytes =>
      match lengthPrefixPointsTo index output with
      | .error err => .error err
      | .ok bl => .ok (.vBytes ((output.drop bl.1).take bl.2))
    | .int _ => readInteger t ((output.drop index).take 32)
    | .uint _ => readInteger t ((output.drop index).take 32)
    | .bool => readBool ((output.drop index).take 32)
    | .address => .ok (.vAddress (((output.drop index).take 32).drop 12))
    | .fixedBytes sz => readFixedBytes sz ((output.drop index).take 32)
    | .function => readFunctionType ((output.drop index).take 32)
termination_by (sizeOf t, 0)
decreasing_by all_goals (simp_wf; try omega)

/-- forEachUnpack (type.go): bounds-check `32 * size` bytes from the
area start, then decode `size` elements, stepping by the element's head
size.  (The negative-size check of the source cannot fire: sizes are
`Nat`s here, produced by the 63-bit-checked length reads.) -/
def unpackElems (e : AbiType) (output : List Nat) (count : Nat) :
    Except AbiErr (List Value) :=
  if 32 * count > output.length then .error .offsetOverBoundary
  else unpackElemsLoop e output 0 count
termination_by (sizeOf e, count + 2)
decreasing_by all_goals (simp_wf; try omega)

/-- The element loop of forEachUnpack. -/
def unpackElemsLoop (e : AbiType) (output : List Nat) (i : Nat) (remaining : Nat) :
    Except AbiErr (List Value) :=
  match remaining with
  | 0 => .ok []
  | r + 1 =>
    match unpackAt i e output with
    | .error err => .error err
    | .ok v =>
      match unpackElemsLoop e output (i + getTypeSize e) r with
      | .error err => .error err
      | .ok vs => .ok (v :: vs)
termination_by (sizeOf e, remaining + 1)
decreasing_by all_goals (simp_wf; try omega)

/-- forTupleUnpack (type.go): decode each field at its head slot,
advancing by the virtual-argument rule. -/
def unpackTuple (es : List AbiType) (output : List Nat) (slot : Nat) :
    Except AbiErr (List Value) :=
  match es with
  | [] => .ok []
  | e :: rest =>
    match unpackAt (slot * 32) e output with
    | .error err => .error err
    | .ok v =>
      match unpackTuple rest output (slotAdvance e slot) with
      | .error err => .error err
      | .ok vs => .ok (v :: vs)
termination_by (sizeOf es, 0)
decreasing_by all_goals (simp_wf; try omega)

end


/-- The per-argument loop of Arguments.UnpackValues (bind.go): indexed
arguments are skipped entirely; non-indexed arguments are decoded at
the running head slot, advanced by the same virtual-argument rule as in
tuples. -/
def unpackArgsLoop (args : List Argument) (data : List Nat) (slot : Nat) :
    Except AbiErr (List Value) :=
  match args with
  | [] => .ok []
  | arg :: rest =>
    if arg.indexed then unpackArgsLoop rest data slot
    else
      match unpackAt (slot * 32) arg.type data with
      | .error err => .error err
      | .ok v =>
        match unpackArgsLoop rest data (slotAdvance arg.type slot) with
        | .error err => .error err
        | .ok vs => .ok (v :: vs)

/-- Arguments.UnpackValues (bind.go). -/
def argumentsUnpackValues (args : List Argument) (data : List Nat) :
    Except AbiErr (List Value) :=
  unpackArgsLoop args data 0

/-- Arguments.Unpack (bind.go): empty input succeeds with an empty value
list only when there are no non-indexed arguments, and fails with the
empty-input error otherwise; non-empty input is decoded by
UnpackValues. -/
def argumentsUnpack (args : List Argument) (data : List Nat) : Except AbiErr (List Value) :=
  if data.length = 0 then
    if (nonIndexed args).length ≠ 0 then .error .emptyInput else .ok []
  else argumentsUnpackValues args data

/-! ### Claim C10: encodings are 32-byte aligned -/

mutual

/-- Every byte-array-shaped leaf value (address, fixed-bytes or
function valued) in the tree has at most 32 bytes — true of every value
of the declared Go types (`common.Address` is 20 bytes, function values
24 bytes, `[N]byte` with `N ≤ 32` for parsed fixed-bytes types). -/
def byteValuesFit : Value → Bool
  | .vAddress bs => decide (bs.length ≤ 32)
  | .vFixedBytes bs => decide (bs.length ≤ 32)
  | .vFunction bs => decide (bs.length ≤ 32)
  | .vList vs => byteValuesFitAll vs
  | .vTuple vs => byteValuesFitAll vs
  | _ => true

def byteValuesFitAll : List Value → Bool
  | [] => true
  | v :: vs => byteValuesFit v && byteValuesFitAll vs

end

/-- The concrete input refuting the claim as stated: a 96-byte input
decoding a `string[1]` whose array offset word has a non-zero high
byte.  Interpreted as an unsigned big integer the word is `2^248 + 32`,
far past the input length, but the decoder reads only its low 8 bytes
(value 32) and succeeds. -/
def c2data : List Nat :=
  beBytes 32 (2 ^ 248 + 32) ++ beBytes 32 32 ++ beBytes 32 0

/-! ### Claim C9: the type-signature parser and canonical strings

`NewType` (type.go) is modelled over `List Char`.  Go strings are byte
strings; the model works with Unicode code points, which coincides with
the byte view on ASCII input.  `unicode.IsLetter` on a non-ASCII rune
(code point 128 or above) is approximated as true in `isGoLetter`; every
input appearing in a theorem below is pure ASCII, where the model is
exact. -/

def countChar (c : Char) (s : List Char) : Nat :=
  (s.filter (fun d => d = c)).length

def lastIndexOf (c : Char) (s : List Char) : Option Nat :=
  match s.reverse.findIdx? (fun d => d = c) with
  | some j => some (s.length - 1 - j)
  | none => none

def digitRunsGo : List Char → List Char → List (List Char)
  | [], acc => if acc = [] then [] else [acc.reverse]
  | c :: rest, acc =>
    if c.isDigit then digitRunsGo rest (c :: acc)
    else if acc = [] then digitRunsGo rest []
    else acc.reverse :: digitRunsGo rest []

/-- `sliceSizeRegex.FindAllString s -1`: the maximal digit runs of `s`. -/
def digitRuns (s : List Char) : List (List Char) := digitRunsGo s []

/-- The submatch groups of Go's `typeRegex`
`([a-zA-Z]+)(([0-9]+)(x([0-9]+))?)?` : `whole` is group 0, `letters`
group 1, `sizeStr` group 2 and `firstDigits` group 3. -/
structure RegexMatch where
  whole : List Char
  letters : List Char
  sizeStr : List Char
  firstDigits : List Char

/-- The first (leftmost) match of `typeRegex` in `t`, if any. -/
def findTypeMatch (t : List Char) : Option RegexMatch :=
  let rest0 := t.dropWhile (fun c => !c.isAlpha)
  match rest0 with
  | [] => none
  | _ =>
    let letters := rest0.takeWhile Char.isAlpha
    let rest1 := rest0.dropWhile Char.isAlpha
    let digits1 := rest1.takeWhile Char.isDigit
    let rest2 := rest1.drop digits1.length
    let xdigits := match rest2 with
      | 'x' :: r => r.takeWhile Char.isDigit
      | _ => []
    if digits1 = [] then some ⟨letters, letters, [], []⟩
    else if xdigits = [] then some ⟨letters ++ digits1, letters, digits1, digits1⟩
    else some ⟨letters ++ digits1 ++ 'x' :: xdigits, letters,
               digits1 ++ 'x' :: xdigits, digits1⟩

/-- `strconv.Atoi` restricted to the inputs the parser hands it:
succeeds on a nonempty all-digit string whose value fits in int64. -/
def atoi (s : List Char) : Except AbiErr Nat :=
  if s ≠ [] ∧ s.all Char.isDigit then
    let n := s.foldl (fun a c => a * 10 + (c.toNat - 48)) 0
    if n < 2 ^ 63 then .ok n else .error .varSizeParse
  else .error .varSizeParse

def capitalizeHead : List Char → List Char
  | [] => []
  | c :: rest => c.toUpper :: rest

/-- `ToCamelCase` (bind.go): split on underscores, capitalise the first
character of each part, join. -/
def toCamelCase (s : List Char) : List Char :=
  ((s.splitOn '_').map capitalizeHead).flatten

/-- `ResolveNameConflict` (utils.go): keep `rawName` if unused, else the
first `rawName ++ idx` (idx = 0, 1, ...) that is unused.  The Go loop is
unbounded; with finitely many used names the first free index is at most
`used.length`, so the bounded search below finds the same name. -/
def resolveNameConflict (rawName : List Char) (used : List (List Char)) : List Char :=
  if rawName ∈ used then
    match (List.range (used.length + 1)).find?
        (fun i => (rawName ++ Nat.toDigits 10 i) ∉ used) with
    | some i => rawName ++ Nat.toDigits 10 i
    | none => rawName
  else rawName

/-- `isLetter` (type.go); non-ASCII code points approximate
`unicode.IsLetter` as true. -/
def isGoLetter (c : Char) : Bool :=
  c.isAlpha || c = '_' || 128 ≤ c.toNat

def isValidFieldName (s : List Char) : Bool :=
  match s with
  | [] => false
  | c :: _ => isGoLetter c && s.all (fun d => isGoLetter d || d.isDigit)

/-- `ArgumentMarshaling`: the fields of a component relevant to
`NewType` (Name, Type, InternalType, Components). -/
inductive ArgMarshal where
  | mk (name : List Char) (typeStr : List Char) (internalTy : List Char)
       (components : List ArgMarshal)

/-- The part of the Go `Type` built by `NewType` that the claims are
about: the recursive shape, the canonical string (`stringKind`), and
the tuple name bookkeeping.  Element types' own string kinds live in
the recursion and are dropped from the result, as only the top-level
canonical string is observable through `Type.String`. -/
structure ParsedTy where
  shape : AbiType
  stringKind : List Char
  tupleRawNames : List (List Char)
  tupleRawName : List Char

def structPre : List Char := ['s', 't', 'r', 'u', 'c', 't', ' ']

def contractPre : List Char := ['c', 'o', 'n', 't', 'r', 'a', 'c', 't', ' ']

mutual

/-- `NewType` (type.go): bracket matching, slice/array recursion on the
last bracket group, `typeRegex` dispatch on the elementary names, and
the tuple branch building components with camel-cased, conflict-resolved
field names.  `stringKind` is assigned the input `t` up front and
overwritten only in the slice/array case (element string kind plus the
raw bracket suffix) and the tuple case (rebuilt expression). -/
def newType (t : List Char) (internalTy : List Char)
    (components : List ArgMarshal) : Except AbiErr ParsedTy :=
  if countChar '[' t ≠ countChar ']' t then .error .invalidArgType
  else if countChar '[' t ≠ 0 then
    let subInternal := match lastIndexOf '[' internalTy with
      | some i => internalTy.take i
      | none => internalTy
    match h : lastIndexOf '[' t with
    | none => .error .invalidArgType
    | some i =>
      match newType (t.take i) subInternal components with
      | .error e => .error e
      | .ok embedded =>
        let sliced := t.drop i
        match digitRuns sliced with
        | [] =>
          .ok ⟨.slice embedded.shape, embedded.stringKind ++ sliced, [], []⟩
        | [d] =>
          match atoi d with
          | .error e => .error e
          | .ok sz =>
            .ok ⟨.array sz embedded.shape, embedded.stringKind ++ sliced, [], []⟩
        | _ => .error .invalidArrayFormat
  else
    match findTypeMatch t with
    | none => .error .invalidTypeStr
    | some m =>
      match (if m.firstDigits ≠ [] then atoi m.sizeStr
             else if m.whole = ['u', 'i', 'n', 't'] ∨ m.whole = ['i', 'n', 't']
             then .error .unsupportedArgType
             else .ok 0) with
      | .error e => .error e
      | .ok varSize =>
        if m.letters = ['i', 'n', 't'] then .ok ⟨.int varSize, t, [], []⟩
        else if m.letters = ['u', 'i', 'n', 't'] then .ok ⟨.uint varSize, t, [], []⟩
        else if m.letters = ['b', 'o', 'o', 'l'] then .ok ⟨.bool, t, [], []⟩
        else if m.letters = ['a', 'd', 'd', 'r', 'e', 's', 's'] then
          .ok ⟨.address, t, [], []⟩
        else if m.letters = ['s', 't', 'r', 'i', 'n', 'g'] then
          .ok ⟨.string, t, [], []⟩
        else if m.letters = ['b', 'y', 't', 'e', 's'] then
          if varSize = 0 then .ok ⟨.bytes, t, [], []⟩
          else if varSize > 32 then .error .unsupportedArgType
          else .ok ⟨.fixedBytes varSize, t, [], []⟩
        else if m.letters = ['t', 'u', 'p', 'l', 'e'] then
          match newTypeTupleLoop components [] with
          | .error e => .error e
          | .ok (pairs, names) =>
            let expression :=
              '(' :: (List.intercalate [','] (pairs.map (fun p => p.2)) ++ [')'])
            let rawName :=
              if internalTy ≠ [] ∧ structPre.isPrefixOf internalTy then
                (internalTy.drop 7).filter (fun c => c ≠ '.')
              else []
            .ok ⟨.tuple (pairs.map (fun p => p.1)), expression, names, rawName⟩
        else if m.letters = ['f', 'u', 'n', 'c', 't', 'i', 'o', 'n'] then
          .ok ⟨.function, t, [], []⟩
        else if contractPre.isPrefixOf internalTy then .ok ⟨.address, t, [], []⟩
        else .error .unsupportedArgType
termination_by (sizeOf components, t.length + 1)
decreasing_by
  · apply Prod.Lex.right
    have hlt : i < t.length := by
      rw [lastIndexOf] at h
      cases h' : t.reverse.findIdx? (fun d => d = '[') with
      | none => rw [h'] at h; exact Option.noConfusion h
      | some j =>
        rw [h'] at h
        rw [Option.some.injEq] at h
        subst h
        have hne : t ≠ [] := by
          rintro rfl
          simp [List.findIdx?] at h'
        have : 0 < t.length := List.length_pos.mpr hne
        omega
    simp [List.length_take]
    omega
  · apply Prod.Lex.right
    omega

/-- The `for idx, c := range components` loop of the tuple branch:
returns the (shape, string kind) pair of each component plus the raw
names, threading the set of used field names. -/
def newTypeTupleLoop (cs : List ArgMarshal) (used : List (List Char)) :
    Except AbiErr (List (AbiType × List Char) × List (List Char)) :=
  match cs with
  | [] => .ok ([], [])
  | .mk cname ctype cinternal ccomps :: rest =>
    match newType ctype cinternal ccomps with
    | .error e => .error e
    | .ok cTy =>
      let name := toCamelCase cname
      if name = [] then .error .anonymousField
      else
        let fieldName := resolveNameConflict name used
        if ¬ isValidFieldName fieldName then .error .invalidFieldName
        else
          match newTypeTupleLoop rest (fieldName :: used) with
          | .error e => .error e
          | .ok (pairs, names) =>
            .ok ((cTy.shape, cTy.stringKind) :: pairs, cname :: names)
termination_by (sizeOf cs, 0)
decreasing_by
  · apply Prod.Lex.left
    simp
    omega
  · apply Prod.Lex.left
    simp

end

/-! ### Claim C1: the round-trip invariants

`StaticRT t v enc`: the in-place decode mode — decoding at the start of
`enc` inside any enclosing byte string recovers `v`.  `DynRT t v enc`:
the offset decode mode — decoding a head slot holding the 32-byte
big-endian offset `p` recovers `v` whenever the bytes from position `p`
on start with `enc`. -/

def StaticRT (t : AbiType) (v : Value) (enc : List Nat) : Prop :=
  ∀ pre suf : List Nat, (pre ++ enc ++ suf).length < 2 ^ 63 →
    unpackAt pre.length t (pre ++ enc ++ suf) = .ok v

def DynRT (t : AbiType) (v : Value) (enc : List Nat) : Prop :=
  ∀ (output : List Nat) (index p : Nat) (suf : List Nat),
    output.length < 2 ^ 63 → index + 32 ≤ output.length →
    (output.drop index).take 32 = beBytes 32 p →
    output.drop p = enc ++ suf →
    unpackAt index t output = .ok v

def c1args : List Argument :=
  [⟨[], .uint 256, false⟩, ⟨[], .string, false⟩]

def c1vals : List Value :=
  [.vUint 1, .vString [104, 105]]

def c1data : List Nat :=
  beBytes 32 1 ++ beBytes 32 64 ++ (beBytes 32 2 ++ rightPad [104, 105] 32)

/-! ### Claims C4 and C3: dynamic classification and head sizes -/

theorem sizeOf_pos (t : AbiType) : 0 < sizeOf t := by
  cases t <;> simp_arith

theorem isDynamic_eq_spec_aux :
    ∀ (n : Nat) (t : AbiType), sizeOf t ≤ n → isDynamicType t = isDynamicSpec t := by
  intro n
  induction n with
  | zero => intro t ht; have := sizeOf_pos t; omega
  | succ n ih =>
    intro t ht
    match t with
    | .tuple es =>
      have hb : sizeOf es ≤ n := by
        simp only [AbiType.tuple.sizeOf_spec] at ht; omega
      clear ht
      simp only [isDynamicType]
      induction es with
      | nil => simp [anyDynamic, isDynamicSpec]
      | cons e rest ihes =>
        have he : sizeOf e ≤ n := by
          simp only [List.cons.sizeOf_spec] at hb; omega
        have hr : sizeOf rest ≤ n := by
          simp only [List.cons.sizeOf_spec] at hb; omega
        simp only [anyDynamic, isDynamicSpec]
        rw [ih e he, ihes hr]
    | .array sz e =>
      have he : sizeOf e ≤ n := by
        simp only [AbiType.array.sizeOf_spec] at ht; omega
      simp only [isDynamicType, isDynamicSpec]
      exact ih e he
    | .int s => simp [isDynamicType, isDynamicSpec]
    | .uint s => simp [isDynamicType, isDynamicSpec]
    | .bool => simp [isDynamicType, isDynamicSpec]
    | .string => simp [isDynamicType, isDynamicSpec]
    | .slice e => simp [isDynamicType, isDynamicSpec]
    | .address => simp [isDynamicType, isDynamicSpec]
    | .fixedBytes s => simp [isDynamicType, isDynamicSpec]
    | .bytes => simp [isDynamicType, isDynamicSpec]
    | .function => simp [isDynamicType, isDynamicSpec]

theorem isDynamic_eq_spec (t : AbiType) : isDynamicType t = isDynamicSpec t :=
  isDynamic_eq_spec_aux (sizeOf t) t (Nat.le_refl _)

/-- Claim C4: `isDynamicType` returns true exactly for String, Bytes,
any Slice, Arrays of dynamic elements, and Tuples with at least one
dynamic field — it agrees with the specification's classification on
every type; all remaining kinds are static. -/
theorem c4_isDynamicType_correct (t : AbiType) : isDynamicType t = isDynamicSpec t :=
  isDynamic_eq_spec t

theorem getTypeSize_tuple (es : List AbiType) :
    getTypeSize (.tuple es) = if isDynamicType (.tuple es) then 32 else sumTypeSizes es := rfl

theorem getTypeSize_array (sz : Nat) (e : AbiType) :
    getTypeSize (.array sz e) =
      if isDynamicType e then 32
      else if isArrayOrTuple e then sz * getTypeSize e else sz * 32 := by
  cases e <;> rfl

theorem getTypeSizeSpec_eq (t : AbiType) : getTypeSizeSpec t =
    if isDynamicSpec t then 32
    else
      match t with
      | .array sz e => if isArrayOrTuple e then sz * getTypeSizeSpec e else sz * 32
      | .tuple [] => 0
      | .tuple (e :: rest) => getTypeSizeSpec e + getTypeSizeSpec (.tuple rest)
      | _ => 32 := by
  rw [getTypeSizeSpec.eq_def]

theorem getTypeSizeSpec_dyn (t : AbiType) (h : isDynamicSpec t = true) :
    getTypeSizeSpec t = 32 := by
  rw [getTypeSizeSpec_eq, if_pos h]

theorem getTypeSizeSpec_array (sz : Nat) (e : AbiType) (h : isDynamicSpec e = false) :
    getTypeSizeSpec (.array sz e) =
      if isArrayOrTuple e then sz * getTypeSizeSpec e else sz * 32 := by
  rw [getTypeSizeSpec_eq,
    if_neg (by rw [show isDynamicSpec (.array sz e) = isDynamicSpec e from by rw [isDynamicSpec], h]; exact Bool.false_ne_true)]

theorem getTypeSizeSpec_tuple_nil : getTypeSizeSpec (.tuple []) = 0 := by
  rw [getTypeSizeSpec_eq, if_neg (by rw [show isDynamicSpec (.tuple []) = false from by rw [isDynamicSpec]]; exact Bool.false_ne_true)]

theorem getTypeSizeSpec_tuple_cons (e : AbiType) (rest : List AbiType)
    (h : isDynamicSpec (.tuple (e :: rest)) = false) :
    getTypeSizeSpec (.tuple (e :: rest)) = getTypeSizeSpec e + getTypeSizeSpec (.tuple rest) := by
  rw [getTypeSizeSpec_eq, if_neg (by rw [h]; exact Bool.false_ne_true)]

theorem getTypeSizeSpec_other (t : AbiType) (h : isArrayOrTuple t = false) :
    getTypeSizeSpec t = 32 := by
  rw [getTypeSizeSpec_eq]
  cases t <;> try (simp [isArrayOrTuple] at h)
  all_goals split <;> rfl

theorem typeSize_eq_spec_aux :
    ∀ (n : Nat) (t : AbiType), sizeOf t ≤ n → getTypeSize t = getTypeSizeSpec t := by
  intro n
  induction n with
  | zero => intro t ht; have := sizeOf_pos t; omega
  | succ n ih =>
    intro t ht
    match t with
    | .tuple es =>
      have hb : sizeOf es ≤ n := by
        simp only [AbiType.tuple.sizeOf_spec] at ht; omega
      clear ht
      rw [getTypeSize_tuple]
      by_cases hd : isDynamicType (.tuple es)
      · rw [if_pos hd, getTypeSizeSpec_dyn _ (by rw [← isDynamic_eq_spec]; exact hd)]
      · rw [if_neg hd]
        rw [Bool.not_eq_true, isDynamic_eq_spec] at hd
        revert hb hd
        induction es with
        | nil => intro hb hd; rw [sumTypeSizes, getTypeSizeSpec_tuple_nil]
        | cons e rest ihes =>
          intro hb hd
          have he : sizeOf e ≤ n := by
            simp only [List.cons.sizeOf_spec] at hb; omega
          have hr : sizeOf rest ≤ n := by
            simp only [List.cons.sizeOf_spec] at hb; omega
          have hsplit : isDynamicSpec e = false ∧ isDynamicSpec (AbiType.tuple rest) = false := by
            rw [isDynamicSpec, Bool.or_eq_false_iff] at hd
            exact hd
          rw [sumTypeSizes, getTypeSizeSpec_tuple_cons e rest hd, ih e he, ihes hr hsplit.2]
    | .array sz e =>
      have he : sizeOf e ≤ n := by
        simp only [AbiType.array.sizeOf_spec] at ht; omega
      rw [getTypeSize_array]
      by_cases hd : isDynamicType e
      · rw [if_pos hd, getTypeSizeSpec_dyn]
        rw [← isDynamic_eq_spec]
        rw [show isDynamicType (.array sz e) = isDynamicType e from by rw [isDynamicType]]
        exact hd
      · rw [if_neg hd]
        rw [Bool.not_eq_true, isDynamic_eq_spec] at hd
        rw [getTypeSizeSpec_array sz e hd, ih e he]
    | .int s => exact (getTypeSizeSpec_other (AbiType.int s) rfl).symm
    | .uint s => exact (getTypeSizeSpec_other (AbiType.uint s) rfl).symm
    | .bool => exact (getTypeSizeSpec_other AbiType.bool rfl).symm
    | .string => exact (getTypeSizeSpec_other AbiType.string rfl).symm
    | .slice e => exact (getTypeSizeSpec_other (AbiType.slice e) rfl).symm
    | .address => exact (getTypeSizeSpec_other AbiType.address rfl).symm
    | .fixedBytes s => exact (getTypeSizeSpec_other (AbiType.fixedBytes s) rfl).symm
    | .bytes => exact (getTypeSizeSpec_other AbiType.bytes rfl).symm
    | .function => exact (getTypeSizeSpec_other AbiType.function rfl).symm

theorem typeSize_eq_spec (t : AbiType) : getTypeSize t = getTypeSizeSpec t :=
  typeSize_eq_spec_aux (sizeOf t) t (Nat.le_refl _)

/-- Claim C3: `getTypeSize` returns 32 for every dynamic type and every
elementary static type, `size * getTypeSize elem` for a static array
whose element is an array or tuple and `size * 32` otherwise, and the
sum of the fields' sizes for a static tuple; being a pure function of
the type tree it depends only on that tree, never on runtime values. -/
theorem c3_getTypeSize_correct (t : AbiType) : getTypeSize t = getTypeSizeSpec t :=
  typeSize_eq_spec t

/-! ### Claim C7: boolean decoding -/

/-- Claim C7: a 32-byte word decodes as Bool successfully iff its first
31 bytes are all zero and its last byte is 0 (giving `false`) or 1
(giving `true`); every other word fails with the improperly-encoded
boolean error. -/
theorem c7_readBool_correct (word : List Nat) (h : word.length = 32) :
    (readBool word = .ok (.vBool false) ↔
      (∀ b ∈ word.take 31, b = 0) ∧ word.getD 31 0 = 0) ∧
    (readBool word = .ok (.vBool true) ↔
      (∀ b ∈ word.take 31, b = 0) ∧ word.getD 31 0 = 1) ∧
    (¬ ((∀ b ∈ word.take 31, b = 0) ∧ word.getD 31 0 ≤ 1) →
      readBool word = .error .badBool) := by
  by_cases hall : ((word.take 31).all (fun b => b == 0)) = true
  · have hz : ∀ b ∈ word.take 31, b = 0 := by
      intro b hb; simpa using (List.all_eq_true.mp hall) b hb
    rcases hg : word.getD 31 0 with _ | g
    · have hg2 : word[31]?.getD 0 = 0 := by
        rw [← List.getD_eq_getElem?_getD]; exact hg
      have hr : readBool word = .ok (.vBool false) := by
        simp [readBool, hall, hg2]
      refine ⟨⟨fun _ => ⟨hz, rfl⟩, fun _ => hr⟩,
        ⟨fun hc => ?_, fun hc => ?_⟩, fun hc => ?_⟩
      · rw [hr] at hc; simp at hc
      · exact absurd hc.2 (by omega)
      · exact absurd ⟨hz, by omega⟩ hc
    · rcases g with _ | g2
      · have hg2 : word[31]?.getD 0 = 1 := by
          rw [← List.getD_eq_getElem?_getD]; exact hg
        have hr : readBool word = .ok (.vBool true) := by
          simp [readBool, hall, hg2]
        refine ⟨⟨fun hc => ?_, fun hc => ?_⟩,
          ⟨fun _ => ⟨hz, by omega⟩, fun _ => hr⟩, fun hc => ?_⟩
        · rw [hr] at hc; simp at hc
        · exact absurd hc.2 (by omega)
        · exact absurd ⟨hz, by omega⟩ hc
      · have hg2 : word[31]?.getD 0 = g2 + 1 + 1 := by
          rw [← List.getD_eq_getElem?_getD]; exact hg
        have hr : readBool word = .error .badBool := by
          simp [readBool, hall, hg2]
        refine ⟨⟨fun hc => ?_, fun hc => ?_⟩,
          ⟨fun hc => ?_, fun hc => ?_⟩, fun _ => hr⟩
        · rw [hr] at hc; simp at hc
        · exact absurd hc.2 (by omega)
        · rw [hr] at hc; simp at hc
        · exact absurd hc.2 (by omega)
  · have hex : ¬ ∀ b ∈ word.take 31, b = 0 := by
      intro hz
      exact hall (List.all_eq_true.mpr (fun b hb => by simpa using hz b hb))
    have hfall : ((word.take 31).all (fun b => b == 0)) = false :=
      Bool.not_eq_true _ ▸ hall
    have hr : readBool word = .error .badBool := by
      simp [readBool, hfall]
    refine ⟨⟨fun hc => ?_, fun hc => absurd hc.1 hex⟩,
      ⟨fun hc => ?_, fun hc => absurd hc.1 hex⟩, fun _ => hr⟩
    · rw [hr] at hc; simp at hc
    · rw [hr] at hc; simp at hc

theorem c7_readBool_correct_witness :
    (List.replicate 31 0 ++ [2]).length = 32 ∧
    readBool (List.replicate 31 0 ++ [2]) = .error .badBool :=
  ⟨by decide,
   (c7_readBool_correct (List.replicate 31 0 ++ [2]) (by decide)).2.2 (by decide)⟩

/-! ### Claim C6: unpacking the empty byte string -/

/-- Claim C6: Arguments.Unpack on the empty byte string succeeds with
the empty value list when the argument list has no non-indexed
arguments and fails with the empty-input error (producing no values)
when it has at least one. -/
theorem c6_unpack_empty (args : List Argument) :
    argumentsUnpack args [] =
      if (nonIndexed args).length = 0 then .ok [] else .error .emptyInput := by
  by_cases h : (nonIndexed args).length = 0 <;>
    simp [argumentsUnpack, h]

/-! ### Claim C5: indexed arguments in the argument-list codec -/

theorem unpackArgsLoop_filter (args : List Argument) (data : List Nat) :
    ∀ slot, unpackArgsLoop args data slot = unpackArgsLoop (nonIndexed args) data slot := by
  induction args with
  | nil => intro slot; rfl
  | cons a rest ih =>
    intro slot
    by_cases hi : a.indexed
    · rw [unpackArgsLoop, if_pos hi, ih slot]
      have : nonIndexed (a :: rest) = nonIndexed rest := by
        simp [nonIndexed, List.filter, hi]
      rw [this]
    · have hne : nonIndexed (a :: rest) = a :: nonIndexed rest := by
        simp [nonIndexed, List.filter, hi]
      rw [unpackArgsLoop, if_neg hi, hne, unpackArgsLoop, if_neg hi, ih]

theorem argsHeadSize_map_type (args : List Argument)
    (f : Argument → Argument) (hf : ∀ a, (f a).type = a.type) :
    argsHeadSize (args.map f) = argsHeadSize args := by
  induction args with
  | nil => rfl
  | cons a rest ih => simp [argsHeadSize, ih, hf]

/-- Claim C5 (amended): indexed arguments are excluded on the decode
side only — UnpackValues decodes exactly the non-indexed arguments,
skipping indexed ones entirely — while Pack encodes every argument
regardless of its indexed flag (the flag has no effect on packing). -/
theorem c5_indexed_handling :
    (∀ (args : List Argument) (data : List Nat),
      argumentsUnpackValues args data = argumentsUnpackValues (nonIndexed args) data) ∧
    (∀ (args : List Argument) (vals : List Value),
      argumentsPack args vals =
        argumentsPack (args.map fun a => ⟨a.name, a.type, false⟩) vals) := by
  constructor
  · intro args data
    exact unpackArgsLoop_filter args data 0
  · intro args vals
    have h1 : argsHeadSize (args.map fun a => (⟨a.name, a.type, false⟩ : Argument)) =
        argsHeadSize args := argsHeadSize_map_type args _ (fun a => rfl)
    have h2 : (args.map fun a => (⟨a.name, a.type, false⟩ : Argument)).map (fun a => a.type) =
        args.map fun a => a.type := by simp
    rw [argumentsPack, argumentsPack, List.length_map, h1, h2]

/-- Claim C5, counterexample to the pack direction: an argument list
whose only argument is indexed still contributes 32 bytes of head to
the Pack output, so Pack does not exclude indexed arguments. -/
theorem c5_counterexample :
    argumentsPack [⟨[], .bool, true⟩] [.vBool true] = .ok (beBytes 32 1) ∧
    (beBytes 32 1 : List Nat) ≠ [] := by
  constructor
  · simp [argumentsPack, packFields, packValue, typeCheckV, packElement,
      argsHeadSize, isDynamicType, getTypeSize]
  · decide

/-! ### Claim C8: arity checking in Arguments.Pack -/

theorem typeCheckV_no_arity (t : AbiType) (v : Value) :
    typeCheckV t v ≠ .error .arityMismatch := by
  intro hc
  cases t <;> cases v <;>
    (simp [typeCheckV] at hc <;> try (split at hc <;> simp_all))

theorem packElement_no_arity (t : AbiType) (v : Value) :
    packElement t v ≠ .error .arityMismatch := by
  intro hc
  cases t <;> cases v <;> simp [packElement] at hc

theorem packElems_no_arity (e : AbiType) (vs : List Value)
    (he : ∀ v, packValue e v ≠ .error .arityMismatch) :
    ∀ offset, packElems e vs offset ≠ .error .arityMismatch := by
  induction vs with
  | nil => intro off hc; rw [packElems] at hc; exact Except.noConfusion hc
  | cons v rest ih =>
    intro off hc
    rw [packElems] at hc
    cases hpv : packValue e v with
    | error err =>
      simp only [hpv] at hc
      injection hc with h2
      exact he v (h2 ▸ hpv)
    | ok val =>
      simp only [hpv] at hc
      by_cases hd : isDynamicType e
      · rw [if_pos hd] at hc
        cases hre : packElems e rest (off + val.length) with
        | error err =>
          simp only [hre] at hc
          injection hc with h2
          exact ih (off + val.length) (h2 ▸ hre)
        | ok ht => simp only [hre] at hc; exact Except.noConfusion hc
      · rw [if_neg hd] at hc
        cases hre : packElems e rest off with
        | error err =>
          simp only [hre] at hc
          injection hc with h2
          exact ih off (h2 ▸ hre)
        | ok ht => simp only [hre] at hc; exact Except.noConfusion hc

theorem packFields_no_arity (es : List AbiType) (vs : List Value)
    (he : ∀ e ∈ es, ∀ v, packValue e v ≠ .error .arityMismatch) :
    ∀ offset, packFields es vs offset ≠ .error .arityMismatch := by
  induction es generalizing vs with
  | nil => intro off hc; rw [packFields] at hc; exact Except.noConfusion hc
  | cons e rest ih =>
    intro off hc
    cases vs with
    | nil =>
      rw [packFields] at hc
      injection hc with h2
      exact AbiErr.noConfusion h2
    | cons v vrest =>
      rw [packFields] at hc
      cases hpv : packValue e v with
      | error err =>
        simp only [hpv] at hc
        injection hc with h2
        exact he e (List.mem_cons_self e rest) v (h2 ▸ hpv)
      | ok val =>
        simp only [hpv] at hc
        have he2 : ∀ e2 ∈ rest, ∀ v2, packValue e2 v2 ≠ .error .arityMismatch :=
          fun e2 h2 => he e2 (List.mem_cons_of_mem e h2)
        by_cases hd : isDynamicType e
        · rw [if_pos hd] at hc
          cases hre : packFields rest vrest (off + val.length) with
          | error err =>
            simp only [hre] at hc
            injection hc with h2
            exact ih vrest he2 (off + val.length) (h2 ▸ hre)
          | ok ht => simp only [hre] at hc; exact Except.noConfusion hc
        · rw [if_neg hd] at hc
          cases hre : packFields rest vrest off with
          | error err =>
            simp only [hre] at hc
            injection hc with h2
            exact ih vrest he2 off (h2 ▸ hre)
          | ok ht => simp only [hre] at hc; exact Except.noConfusion hc

theorem packValue_no_arity_aux :
    ∀ (n : Nat) (t : AbiType), sizeOf t ≤ n → ∀ v, packValue t v ≠ .error .arityMismatch := by
  intro n
  induction n with
  | zero => intro t ht; have := sizeOf_pos t; omega
  | succ n ih =>
    intro t ht v hc
    match t, v with
    | .slice e, .vList vs =>
      have he : sizeOf e ≤ n := by
        simp only [AbiType.slice.sizeOf_spec] at ht; omega
      simp only [packValue, typeCheckV] at hc
      cases hpe : packElems e vs (getTypeSize e * vs.length) with
      | error err =>
        simp only [hpe] at hc
        injection hc with h2
        exact packElems_no_arity e vs (fun v2 => ih e he v2) _ (h2 ▸ hpe)
      | ok ht2 => simp only [hpe] at hc; exact Except.noConfusion hc
    | .array sz e, .vList vs =>
      have he : sizeOf e ≤ n := by
        simp only [AbiType.array.sizeOf_spec] at ht; omega
      by_cases hlen : vs.length = sz
      · simp [packValue, typeCheckV, hlen] at hc
        cases hpe : packElems e vs (getTypeSize e * sz) with
        | error err =>
          simp only [hpe] at hc
          injection hc with h2
          exact packElems_no_arity e vs (fun v2 => ih e he v2) _ (h2 ▸ hpe)
        | ok ht2 => simp only [hpe] at hc; exact Except.noConfusion hc
      · simp [packValue, typeCheckV, hlen] at hc
    | .tuple es, .vTuple vs =>
      have hes : ∀ e ∈ es, ∀ v2, packValue e v2 ≠ .error .arityMismatch := by
        intro e hmem v2
        have hse : sizeOf e ≤ n := by
          have h1 := List.sizeOf_lt_of_mem hmem
          simp only [AbiType.tuple.sizeOf_spec] at ht
          omega
        exact ih e hse v2
      simp only [packValue, typeCheckV] at hc
      cases hpe : packFields es vs (sumTypeSizes es) with
      | error err =>
        simp only [hpe] at hc
        injection hc with h2
        exact packFields_no_arity es vs hes _ (h2 ▸ hpe)
      | ok ht2 => simp only [hpe] at hc; exact Except.noConfusion hc
    | .slice e, .vUint n2 => simp [packValue, typeCheckV, packElement] at hc
    | .slice e, .vInt i => simp [packValue, typeCheckV, packElement] at hc
    | .slice e, .vBool b => simp [packValue, typeCheckV, packElement] at hc
    | .slice e, .vString s => simp [packValue, typeCheckV, packElement] at hc
    | .slice e, .vBytes bs => simp [packValue, typeCheckV, packElement] at hc
    | .slice e, .vAddress bs => simp [packValue, typeCheckV, packElement] at hc
    | .slice e, .vFixedBytes bs => simp [packValue, typeCheckV, packElement] at hc
    | .slice e, .vFunction bs => simp [packValue, typeCheckV, packElement] at hc
    | .slice e, .vTuple vs => simp [packValue, typeCheckV, packElement] at hc
    | .array sz e, .vUint n2 => simp [packValue, typeCheckV, packElement] at hc
    | .array sz e, .vInt i => simp [packValue, typeCheckV, packElement] at hc
    | .array sz e, .vBool b => simp [packValue, typeCheckV, packElement] at hc
    | .array sz e, .vString s => simp [packValue, typeCheckV, packElement] at hc
    | .array sz e, .vBytes bs => simp [packValue, typeCheckV, packElement] at hc
    | .array sz e, .vAddress bs => simp [packValue, typeCheckV, packElement] at hc
    | .array sz e, .vFixedBytes bs => simp [packValue, typeCheckV, packElement] at hc
    | .array sz e, .vFunction bs => simp [packValue, typeCheckV, packElement] at hc
    | .array sz e, .vTuple vs2 => simp [packValue, typeCheckV, packElement] at hc
    | .tuple es, .vUint n2 => simp [packValue, typeCheckV, packElement] at hc
    | .tuple es, .vInt i => simp [packValue, typeCheckV, packElement] at hc
    | .tuple es, .vBool b => simp [packValue, typeCheckV, packElement] at hc
    | .tuple es, .vString s => simp [packValue, typeCheckV, packElement] at hc
    | .tuple es, .vBytes bs => simp [packValue, typeCheckV, packElement] at hc
    | .tuple es, .vAddress bs => simp [packValue, typeCheckV, packElement] at hc
    | .tuple es, .vFixedBytes bs => simp [packValue, typeCheckV, packElement] at hc
    | .tuple es, .vFunction bs => simp [packValue, typeCheckV, packElement] at hc
    | .tuple es, .vList vs => simp [packValue, typeCheckV, packElement] at hc
    | .int s, v2 =>
      cases v2 <;> simp [packValue, typeCheckV, packElement] at hc
    | .uint s, v2 =>
      cases v2 <;> simp [packValue, typeCheckV, packElement] at hc
    | .bool, v2 =>
      cases v2 <;> simp [packValue, typeCheckV, packElement] at hc
    | .string, v2 =>
      cases v2 <;> simp [packValue, typeCheckV, packElement] at hc
    | .address, v2 =>
      cases v2 <;> simp [packValue, typeCheckV, packElement] at hc
    | .fixedBytes s, v2 =>
      cases v2 with
      | vAddress bs =>
        by_cases hl : bs.length = s <;>
          simp [packValue, typeCheckV, packElement, hl] at hc
      | vFixedBytes bs =>
        by_cases hl : bs.length = s <;>
          simp [packValue, typeCheckV, packElement, hl] at hc
      | vFunction bs =>
        by_cases hl : bs.length = s <;>
          simp [packValue, typeCheckV, packElement, hl] at hc
      | vUint n2 => simp [packValue, typeCheckV, packElement] at hc
      | vInt i => simp [packValue, typeCheckV, packElement] at hc
      | vBool b => simp [packValue, typeCheckV, packElement] at hc
      | vString s2 => simp [packValue, typeCheckV, packElement] at hc
      | vBytes bs => simp [packValue, typeCheckV, packElement] at hc
      | vList vs2 => simp [packValue, typeCheckV, packElement] at hc
      | vTuple vs2 => simp [packValue, typeCheckV, packElement] at hc
    | .bytes, v2 =>
      cases v2 <;> simp [packValue, typeCheckV, packElement] at hc
    | .function, v2 =>
      cases v2 <;> simp [packValue, typeCheckV, packElement] at hc

theorem packValue_no_arity (t : AbiType) (v : Value) :
    packValue t v ≠ .error .arityMismatch :=
  packValue_no_arity_aux (sizeOf t) t (Nat.le_refl _) v

/-- Claim C8: Arguments.Pack fails with the argument-count-mismatch
error exactly when the number of supplied values differs from the total
number of arguments (indexed plus non-indexed); with matching counts it
proceeds to encode and never reports that error. -/
theorem c8_pack_arity (args : List Argument) (vals : List Value) :
    argumentsPack args vals = .error .arityMismatch ↔ vals.length ≠ args.length := by
  constructor
  · intro hc
    by_contra hlen
    rw [argumentsPack, if_neg (not_not_intro hlen)] at hc
    cases hpf : packFields (args.map fun a => a.type) vals (argsHeadSize args) with
    | error e =>
      simp only [hpf] at hc
      injection hc with h2
      exact packFields_no_arity _ vals
        (fun e2 _ v2 => packValue_no_arity e2 v2) _ (h2 ▸ hpf)
    | ok ht => simp only [hpf] at hc; exact Except.noConfusion hc
  · intro h
    rw [argumentsPack, if_pos h]

theorem c8_pack_arity_witness :
    argumentsPack [] [.vBool true] = .error .arityMismatch ∧
    ([Value.vBool true].length ≠ ([] : List Argument).length) :=
  ⟨(c8_pack_arity [] [.vBool true]).mpr (by simp), by simp⟩


theorem beBytes_length (k : Nat) : ∀ n, (beBytes k n).length = k := by
  induction k with
  | zero => intro n; rfl
  | succ k ih => intro n; simp [beBytes, ih]

theorem rightPad_length (bs : List Nat) (l : Nat) :
    (rightPad bs l).length = max l bs.length := by
  rw [rightPad]
  split <;> simp <;> omega

theorem leftPad_length (bs : List Nat) (l : Nat) :
    (leftPad bs l).length = max l bs.length := by
  rw [leftPad]
  split <;> simp <;> omega

theorem packBytesSlice_length (bs : List Nat) :
    (packBytesSlice bs bs.length).length = 32 + (bs.length + 31) / 32 * 32 := by
  rw [packBytesSlice]
  simp [beBytes_length, rightPad_length]
  omega

theorem packElement_mod32 (t : AbiType) (v : Value) (enc : List Nat)
    (hfit : byteValuesFit v = true) (h : packElement t v = .ok enc) :
    enc.length % 32 = 0 := by
  cases t <;> cases v <;> simp [packElement] at h <;>
    subst h <;> (try simp [byteValuesFit] at hfit) <;>
    simp [beBytes_length, leftPad_length, rightPad_length, packBytesSlice_length] <;>
    omega

theorem packElems_mod32 (e : AbiType) (vs : List Value)
    (he : ∀ v, byteValuesFit v = true → ∀ enc, packValue e v = .ok enc → enc.length % 32 = 0)
    (hfit : byteValuesFitAll vs = true) :
    ∀ off H T, packElems e vs off = .ok (H, T) →
      H.length % 32 = 0 ∧ T.length % 32 = 0 := by
  induction vs with
  | nil =>
    intro off H T h
    rw [packElems] at h
    injection h with h2
    injection h2 with hH hT
    subst hH; subst hT
    simp
  | cons v rest ih =>
    intro off H T h
    rw [byteValuesFitAll, Bool.and_eq_true] at hfit
    rw [packElems] at h
    cases hpv : packValue e v with
    | error err => simp only [hpv] at h; exact Except.noConfusion h
    | ok val =>
      simp only [hpv] at h
      have hval := he v hfit.1 val hpv
      by_cases hd : isDynamicType e
      · rw [if_pos hd] at h
        cases hre : packElems e rest (off + val.length) with
        | error err => simp only [hre] at h; exact Except.noConfusion h
        | ok ht =>
          simp only [hre] at h
          injection h with h2
          injection h2 with hH hT
          subst hH; subst hT
          have := ih hfit.2 (off + val.length) ht.1 ht.2 hre
          constructor
          · simp only [List.length_append, beBytes_length]; omega
          · simp only [List.length_append]; omega
      · rw [if_neg hd] at h
        cases hre : packElems e rest off with
        | error err => simp only [hre] at h; exact Except.noConfusion h
        | ok ht =>
          simp only [hre] at h
          injection h with h2
          injection h2 with hH hT
          subst hH; subst hT
          have := ih hfit.2 off ht.1 ht.2 hre
          constructor
          · simp only [List.length_append]; omega
          · omega

theorem packFields_mod32 (es : List AbiType) (vs : List Value)
    (he : ∀ e ∈ es, ∀ v, byteValuesFit v = true → ∀ enc,
      packValue e v = .ok enc → enc.length % 32 = 0)
    (hfit : byteValuesFitAll vs = true) :
    ∀ off H T, packFields es vs off = .ok (H, T) →
      H.length % 32 = 0 ∧ T.length % 32 = 0 := by
  induction es generalizing vs with
  | nil =>
    intro off H T h
    rw [packFields] at h
    injection h with h2
    injection h2 with hH hT
    subst hH; subst hT
    simp
  | cons e rest ih =>
    intro off H T h
    cases vs with
    | nil => rw [packFields] at h; exact Except.noConfusion h
    | cons v vrest =>
      rw [byteValuesFitAll, Bool.and_eq_true] at hfit
      rw [packFields] at h
      cases hpv : packValue e v with
      | error err => simp only [hpv] at h; exact Except.noConfusion h
      | ok val =>
        simp only [hpv] at h
        have hval := he e (List.mem_cons_self e rest) v hfit.1 val hpv
        have he2 : ∀ e2 ∈ rest, ∀ v2, byteValuesFit v2 = true → ∀ enc,
            packValue e2 v2 = .ok enc → enc.length % 32 = 0 :=
          fun e2 hmem => he e2 (List.mem_cons_of_mem e hmem)
        by_cases hd : isDynamicType e
        · rw [if_pos hd] at h
          cases hre : packFields rest vrest (off + val.length) with
          | error err => simp only [hre] at h; exact Except.noConfusion h
          | ok ht =>
            simp only [hre] at h
            injection h with h2
            injection h2 with hH hT
            subst hH; subst hT
            have := ih vrest he2 hfit.2 (off + val.length) ht.1 ht.2 hre
            constructor
            · simp only [List.length_append, beBytes_length]; omega
            · simp only [List.length_append]; omega
        · rw [if_neg hd] at h
          cases hre : packFields rest vrest off with
          | error err => simp only [hre] at h; exact Except.noConfusion h
          | ok ht =>
            simp only [hre] at h
            injection h with h2
            injection h2 with hH hT
            subst hH; subst hT
            have := ih vrest he2 hfit.2 off ht.1 ht.2 hre
            constructor
            · simp only [List.length_append]; omega
            · omega

theorem packValue_mod32_aux :
    ∀ (n : Nat) (t : AbiType), sizeOf t ≤ n → ∀ v, byteValuesFit v = true →
      ∀ enc, packValue t v = .ok enc → enc.length % 32 = 0 := by
  intro n
  induction n with
  | zero => intro t ht; have := sizeOf_pos t; omega
  | succ n ih =>
    intro t ht v hfit enc hc
    cases t with
    | slice e =>
      cases v
      case vList vs =>
        have he : sizeOf e ≤ n := by
          simp only [AbiType.slice.sizeOf_spec] at ht; omega
        simp only [packValue, typeCheckV] at hc
        cases hpe : packElems e vs (getTypeSize e * vs.length) with
        | error err => simp only [hpe] at hc; exact Except.noConfusion hc
        | ok ht2 =>
          simp only [hpe] at hc
          rw [Except.ok.injEq] at hc
          subst hc
          simp only [byteValuesFit] at hfit
          have := packElems_mod32 e vs (fun v2 => ih e he v2) hfit _ ht2.1 ht2.2 hpe
          simp only [List.length_append, beBytes_length]
          omega
      all_goals simp [packValue, typeCheckV, packElement] at hc
    | array sz e =>
      cases v
      case vList vs =>
        have he : sizeOf e ≤ n := by
          simp only [AbiType.array.sizeOf_spec] at ht; omega
        by_cases hlen : vs.length = sz
        · simp [packValue, typeCheckV, hlen] at hc
          cases hpe : packElems e vs (getTypeSize e * sz) with
          | error err => simp only [hpe] at hc; exact Except.noConfusion hc
          | ok ht2 =>
            simp only [hpe] at hc
            rw [Except.ok.injEq] at hc
            subst hc
            simp only [byteValuesFit] at hfit
            have := packElems_mod32 e vs (fun v2 => ih e he v2) hfit _ ht2.1 ht2.2 hpe
            simp only [List.length_append]
            omega
        · simp [packValue, typeCheckV, hlen] at hc
      all_goals simp [packValue, typeCheckV, packElement] at hc
    | tuple es =>
      cases v
      case vTuple vs =>
        have hes : ∀ e ∈ es, ∀ v2, byteValuesFit v2 = true → ∀ enc2,
            packValue e v2 = .ok enc2 → enc2.length % 32 = 0 := by
          intro e hmem v2
          have hse : sizeOf e ≤ n := by
            have h1 := List.sizeOf_lt_of_mem hmem
            simp only [AbiType.tuple.sizeOf_spec] at ht
            omega
          exact ih e hse v2
        simp only [packValue, typeCheckV] at hc
        cases hpe : packFields es vs (sumTypeSizes es) with
        | error err => simp only [hpe] at hc; exact Except.noConfusion hc
        | ok ht2 =>
          simp only [hpe] at hc
          rw [Except.ok.injEq] at hc
          subst hc
          simp only [byteValuesFit] at hfit
          have := packFields_mod32 es vs hes hfit _ ht2.1 ht2.2 hpe
          simp only [List.length_append]
          omega
      all_goals simp [packValue, typeCheckV, packElement] at hc
    | int s =>
      cases hte : typeCheckV (.int s) v with
      | error err => simp only [packValue, hte] at hc; exact Except.noConfusion hc
      | ok u =>
        simp only [packValue, hte] at hc
        exact packElement_mod32 _ v enc hfit hc
    | uint s =>
      cases hte : typeCheckV (.uint s) v with
      | error err => simp only [packValue, hte] at hc; exact Except.noConfusion hc
      | ok u =>
        simp only [packValue, hte] at hc
        exact packElement_mod32 _ v enc hfit hc
    | bool =>
      cases hte : typeCheckV .bool v with
      | error err => simp only [packValue, hte] at hc; exact Except.noConfusion hc
      | ok u =>
        simp only [packValue, hte] at hc
        exact packElement_mod32 _ v enc hfit hc
    | string =>
      cases hte : typeCheckV .string v with
      | error err => simp only [packValue, hte] at hc; exact Except.noConfusion hc
      | ok u =>
        simp only [packValue, hte] at hc
        exact packElement_mod32 _ v enc hfit hc
    | address =>
      cases hte : typeCheckV .address v with
      | error err => simp only [packValue, hte] at hc; exact Except.noConfusion hc
      | ok u =>
        simp only [packValue, hte] at hc
        exact packElement_mod32 _ v enc hfit hc
    | fixedBytes s =>
      cases hte : typeCheckV (.fixedBytes s) v with
      | error err => simp only [packValue, hte] at hc; exact Except.noConfusion hc
      | ok u =>
        simp only [packValue, hte] at hc
        exact packElement_mod32 _ v enc hfit hc
    | bytes =>
      cases hte : typeCheckV .bytes v with
      | error err => simp only [packValue, hte] at hc; exact Except.noConfusion hc
      | ok u =>
        simp only [packValue, hte] at hc
        exact packElement_mod32 _ v enc hfit hc
    | function =>
      cases hte : typeCheckV .function v with
      | error err => simp only [packValue, hte] at hc; exact Except.noConfusion hc
      | ok u =>
        simp only [packValue, hte] at hc
        exact packElement_mod32 _ v enc hfit hc

theorem packValue_mod32 (t : AbiType) (v : Value) (enc : List Nat)
    (hfit : byteValuesFit v = true) (h : packValue t v = .ok enc) :
    enc.length % 32 = 0 :=
  packValue_mod32_aux (sizeOf t) t (Nat.le_refl _) v hfit enc h

/-- Claim C10 (amended): provided every byte-array-shaped leaf value
supplied has at most 32 bytes — true of every value of the declared Go
types (`common.Address` = 20 bytes, function values = 24 bytes, parsed
fixed-bytes types ≤ 32 bytes) — every byte string successfully produced
by `Type.pack` or `Arguments.Pack` has length that is a multiple of
32. -/
theorem c10_pack_aligned :
    (∀ (t : AbiType) (v : Value) (enc : List Nat), byteValuesFit v = true →
      packValue t v = .ok enc → enc.length % 32 = 0) ∧
    (∀ (args : List Argument) (vals : List Value) (data : List Nat),
      byteValuesFitAll vals = true →
      argumentsPack args vals = .ok data → data.length % 32 = 0) := by
  constructor
  · exact fun t v enc hfit h => packValue_mod32 t v enc hfit h
  · intro args vals data hfit h
    rw [argumentsPack] at h
    split at h
    · exact Except.noConfusion h
    · cases hpf : packFields (args.map fun a => a.type) vals (argsHeadSize args) with
      | error err => simp only [hpf] at h; exact Except.noConfusion h
      | ok ht =>
        simp only [hpf] at h
        injection h with h2
        subst h2
        have := packFields_mod32 _ vals
          (fun e _ v2 hf enc2 hp => packValue_mod32 e v2 enc2 hf hp) hfit _ ht.1 ht.2 hpf
        simp only [List.length_append]
        omega

theorem c10_pack_aligned_witness :
    byteValuesFit (.vUint 5) = true ∧
    packValue (.uint 8) (.vUint 5) = .ok (beBytes 32 5) ∧
    (beBytes 32 5).length % 32 = 0 :=
  ⟨by decide,
   by simp [packValue, typeCheckV, packElement],
   c10_pack_aligned.1 (.uint 8) (.vUint 5) (beBytes 32 5) (by decide)
     (by simp [packValue, typeCheckV, packElement])⟩

/-- Claim C10, counterexample: a 33-byte array value is accepted for an
`address` argument (Go's typeCheck compares reflect kinds only), and
`LeftPadBytes` returns byte strings longer than 32 unchanged, so the
encoder successfully produces a 33-byte output — not a multiple of
32. -/
theorem c10_counterexample :
    packValue .address (.vFixedBytes (List.replicate 33 0)) =
      .ok (List.replicate 33 0) ∧
    (List.replicate 33 (0 : Nat)).length % 32 ≠ 0 := by
  constructor
  · simp [packValue, typeCheckV, packElement, leftPad]
  · decide

/-! ### Claim C2: decode-time offset and length validation -/

/-- Claim C2 (amended): the offset word of a length-prefixed type
(String, Bytes, Slice) is interpreted as an unsigned big integer and
checked — `offset+32 ≤ len(output)` and 63-bit-representable, then the
length word it points at is checked `offset+32+length ≤ len(output)`
and 63-bit-representable — before any slicing; on success the content
window `start..start+length` lies inside the output.  A dynamic tuple's
offset word is interpreted as an unsigned big integer and checked
`offset ≤ len(output)` and 63-bit-representable.  (The offset word of a
fixed-size array of dynamic elements is however read as its low 8 bytes
only; see the counterexample.) -/
theorem c2_offset_checks :
    (∀ (index : Nat) (output : List Nat) (start len : Nat),
       lengthPrefixPointsTo index output = .ok (start, len) →
         start = deBytes ((output.drop index).take 32) + 32 ∧
         start + len ≤ output.length ∧ start + len < 2 ^ 63) ∧
    (∀ (index : Nat) (output : List Nat),
       (output.length < deBytes ((output.drop index).take 32) + 32 ∨
        2 ^ 63 ≤ deBytes ((output.drop index).take 32) + 32) →
       ∃ err, lengthPrefixPointsTo index output = .error err) ∧
    (∀ (index : Nat) (output : List Nat) (b : Nat),
       tuplePointsTo index output = .ok b →
         b = deBytes ((output.drop index).take 32) ∧
         b ≤ output.length ∧ b < 2 ^ 63) ∧
    (∀ (index : Nat) (output : List Nat),
       (output.length < deBytes ((output.drop index).take 32) ∨
        2 ^ 63 ≤ deBytes ((output.drop index).take 32)) →
       ∃ err, tuplePointsTo index output = .error err) := by
  refine ⟨?_, ?_, ?_, ?_⟩
  · intro index output start len h
    simp only [lengthPrefixPointsTo] at h
    split_ifs at h with h1 h2 h3 h4
    rw [Except.ok.injEq, Prod.mk.injEq] at h
    obtain ⟨hs, hl⟩ := h
    subst hs; subst hl
    refine ⟨rfl, by omega, by omega⟩
  · intro index output hbad
    simp only [lengthPrefixPointsTo]
    split_ifs with h1 h2 h3 h4
    · exact ⟨_, rfl⟩
    · exact ⟨_, rfl⟩
    · exact ⟨_, rfl⟩
    · exact ⟨_, rfl⟩
    · omega
  · intro index output b h
    simp only [tuplePointsTo] at h
    split_ifs at h with h1 h2
    rw [Except.ok.injEq] at h
    subst h
    exact ⟨rfl, by omega, by omega⟩
  · intro index output hbad
    simp only [tuplePointsTo]
    split_ifs with h1 h2
    · exact ⟨_, rfl⟩
    · exact ⟨_, rfl⟩
    · omega

theorem c2_offset_checks_witness :
    (([] : List Nat).length < deBytes ((([] : List Nat).drop 0).take 32) + 32 ∨
      2 ^ 63 ≤ deBytes ((([] : List Nat).drop 0).take 32) + 32) ∧
    (∃ err, lengthPrefixPointsTo 0 [] = .error err) :=
  ⟨Or.inl (by decide), c2_offset_checks.2.1 0 [] (Or.inl (by decide))⟩

/-- Claim C2, counterexample: decoding does NOT return an error for
every offset word whose big-integer value points past the input — the
offset word of a fixed-size array of dynamic elements is truncated to
its low 8 bytes, so this word of value `2^248 + 32 > 96 = len(data)`
is accepted and decoding succeeds. -/
theorem c2_counterexample :
    deBytes (c2data.take 32) = 2 ^ 248 + 32 ∧
    c2data.length < 2 ^ 248 + 32 ∧
    unpackAt 0 (.array 1 .string) c2data = .ok (.vList [.vString []]) := by
  refine ⟨by decide, by decide, ?_⟩
  simp [unpackAt, unpackElems, unpackElemsLoop, lengthPrefixPointsTo,
    isDynamicType, getTypeSize, c2data, beBytes, deBytes]

theorem lastIndexOf_lt_length (c : Char) (s : List Char) (i : Nat)
    (h : lastIndexOf c s = some i) : i < s.length := by
  rw [lastIndexOf] at h
  cases h' : s.reverse.findIdx? (fun d => d = c) with
  | none => rw [h'] at h; exact Option.noConfusion h
  | some j =>
    rw [h'] at h
    rw [Option.some.injEq] at h
    subst h
    have hne : s ≠ [] := by
      rintro rfl
      simp [List.findIdx?] at h'
    have : 0 < s.length := List.length_pos.mpr hne
    omega


theorem newType_bool :
    newType ['b', 'o', 'o', 'l'] [] [] = .ok ⟨.bool, ['b', 'o', 'o', 'l'], [], []⟩ := by
  rw [newType.eq_def]
  rfl

theorem newType_spaceBool :
    newType [' ', 'b', 'o', 'o', 'l'] [] [] =
      .ok ⟨.bool, [' ', 'b', 'o', 'o', 'l'], [], []⟩ := by
  rw [newType.eq_def]
  rfl

theorem newType_string :
    newType ['s', 't', 'r', 'i', 'n', 'g'] [] [] =
      .ok ⟨.string, ['s', 't', 'r', 'i', 'n', 'g'], [], []⟩ := by
  rw [newType.eq_def]
  rfl

theorem newType_uint256 :
    newType ['u', 'i', 'n', 't', '2', '5', '6'] [] [] =
      .ok ⟨.uint 256, ['u', 'i', 'n', 't', '2', '5', '6'], [], []⟩ := by
  rw [newType.eq_def]
  rfl

theorem newType_uint256arr2 :
    newType ['u', 'i', 'n', 't', '2', '5', '6', '[', '2', ']'] [] [] =
      .ok ⟨.array 2 (.uint 256),
           ['u', 'i', 'n', 't', '2', '5', '6', '[', '2', ']'], [], []⟩ := by
  rw [newType.eq_def]
  simp +decide only [ite_true, ite_false]
  split
  · next h => exact absurd h (by decide)
  · next i h =>
    rw [show lastIndexOf '[' ['u', 'i', 'n', 't', '2', '5', '6', '[', '2', ']'] = some 7
      from rfl] at h
    rw [Option.some.injEq] at h
    subst h
    rw [show List.take 7 ['u', 'i', 'n', 't', '2', '5', '6', '[', '2', ']'] =
      ['u', 'i', 'n', 't', '2', '5', '6'] from rfl]
    rw [show lastIndexOf '[' ([] : List Char) = none from rfl]
    simp only [newType_uint256]
    rfl

theorem newType_uint256arr2slice :
    newType ['u', 'i', 'n', 't', '2', '5', '6', '[', '2', ']', '[', ']'] [] [] =
      .ok ⟨.slice (.array 2 (.uint 256)),
           ['u', 'i', 'n', 't', '2', '5', '6', '[', '2', ']', '[', ']'], [], []⟩ := by
  rw [newType.eq_def]
  simp +decide only [ite_true, ite_false]
  split
  · next h => exact absurd h (by decide)
  · next i h =>
    rw [show lastIndexOf '['
        ['u', 'i', 'n', 't', '2', '5', '6', '[', '2', ']', '[', ']'] = some 10
      from rfl] at h
    rw [Option.some.injEq] at h
    subst h
    rw [show List.take 10 ['u', 'i', 'n', 't', '2', '5', '6', '[', '2', ']', '[', ']'] =
      ['u', 'i', 'n', 't', '2', '5', '6', '[', '2', ']'] from rfl]
    rw [show lastIndexOf '[' ([] : List Char) = none from rfl]
    simp only [newType_uint256arr2]
    rfl

theorem newType_uint256arr2sliceSp :
    newType ['u', 'i', 'n', 't', '2', '5', '6', '[', '2', ']', '[', ' ', ']'] [] [] =
      .ok ⟨.slice (.array 2 (.uint 256)),
           ['u', 'i', 'n', 't', '2', '5', '6', '[', '2', ']', '[', ' ', ']'], [], []⟩ := by
  rw [newType.eq_def]
  simp +decide only [ite_true, ite_false]
  split
  · next h => exact absurd h (by decide)
  · next i h =>
    rw [show lastIndexOf '['
        ['u', 'i', 'n', 't', '2', '5', '6', '[', '2', ']', '[', ' ', ']'] = some 10
      from rfl] at h
    rw [Option.some.injEq] at h
    subst h
    rw [show List.take 10
        ['u', 'i', 'n', 't', '2', '5', '6', '[', '2', ']', '[', ' ', ']'] =
      ['u', 'i', 'n', 't', '2', '5', '6', '[', '2', ']'] from rfl]
    rw [show lastIndexOf '[' ([] : List Char) = none from rfl]
    simp only [newType_uint256arr2]
    rfl

theorem newTypeTupleLoop_nil (used : List (List Char)) :
    newTypeTupleLoop [] used = .ok ([], []) := by
  rw [newTypeTupleLoop.eq_def]

theorem newType_tupleAB :
    newType ['t', 'u', 'p', 'l', 'e'] []
        [.mk ['a'] ['u', 'i', 'n', 't', '2', '5', '6'] [] [],
         .mk ['b'] ['s', 't', 'r', 'i', 'n', 'g'] [] []] =
      .ok ⟨.tuple [.uint 256, .string],
           ['(', 'u', 'i', 'n', 't', '2', '5', '6', ',', 's', 't', 'r', 'i', 'n', 'g', ')'],
           [['a'], ['b']], []⟩ := by
  have h2 : newTypeTupleLoop [ArgMarshal.mk ['b'] ['s', 't', 'r', 'i', 'n', 'g'] [] []]
      [['A']] = .ok ([(.string, ['s', 't', 'r', 'i', 'n', 'g'])], [['b']]) := by
    rw [newTypeTupleLoop.eq_def]
    simp +decide only [newType_string, newTypeTupleLoop_nil,
      show toCamelCase ['b'] = ['B'] from rfl,
      show resolveNameConflict ['B'] [['A']] = ['B'] from rfl]
    rfl
  have h1 : newTypeTupleLoop
      [ArgMarshal.mk ['a'] ['u', 'i', 'n', 't', '2', '5', '6'] [] [],
       ArgMarshal.mk ['b'] ['s', 't', 'r', 'i', 'n', 'g'] [] []] [] =
      .ok ([(.uint 256, ['u', 'i', 'n', 't', '2', '5', '6']),
            (.string, ['s', 't', 'r', 'i', 'n', 'g'])], [['a'], ['b']]) := by
    rw [newTypeTupleLoop.eq_def]
    simp +decide only [newType_uint256, h2,
      show toCamelCase ['a'] = ['A'] from rfl,
      show resolveNameConflict ['A'] [] = ['A'] from rfl]
    rfl
  rw [newType.eq_def]
  simp +decide only [h1]
  rfl

theorem newType_elementary_verbatim (t iTy : List Char) (comps : List ArgMarshal)
    (p : ParsedTy) (h : newType t iTy comps = .ok p) (hb : countChar '[' t = 0)
    (ht : ∀ es, p.shape ≠ .tuple es) : p.stringKind = t := by
  rw [newType.eq_def] at h
  rw [hb] at h
  by_cases h1 : (0 : Nat) ≠ countChar ']' t
  · rw [if_pos h1] at h
    exact Except.noConfusion h
  · rw [if_neg h1] at h
    rw [if_neg (fun hh => hh rfl : ¬ (0 : Nat) ≠ 0)] at h
    cases hm : findTypeMatch t with
    | none =>
      rw [hm] at h
      exact Except.noConfusion h
    | some m =>
      simp only [hm] at h
      have hchain : ∀ varSize : Nat,
          (if m.letters = ['i', 'n', 't'] then
             Except.ok (⟨.int varSize, t, [], []⟩ : ParsedTy)
           else if m.letters = ['u', 'i', 'n', 't'] then
             .ok ⟨.uint varSize, t, [], []⟩
           else if m.letters = ['b', 'o', 'o', 'l'] then .ok ⟨.bool, t, [], []⟩
           else if m.letters = ['a', 'd', 'd', 'r', 'e', 's', 's'] then
             .ok ⟨.address, t, [], []⟩
           else if m.letters = ['s', 't', 'r', 'i', 'n', 'g'] then
             .ok ⟨.string, t, [], []⟩
           else if m.letters = ['b', 'y', 't', 'e', 's'] then
             if varSize = 0 then .ok ⟨.bytes, t, [], []⟩
             else if varSize > 32 then .error .unsupportedArgType
             else .ok ⟨.fixedBytes varSize, t, [], []⟩
           else if m.letters = ['t', 'u', 'p', 'l', 'e'] then
             match newTypeTupleLoop comps [] with
             | .error e => .error e
             | .ok (pairs, names) =>
               let expression :=
                 '(' :: (List.intercalate [','] (pairs.map (fun p => p.2)) ++ [')'])
               let rawName :=
                 if iTy ≠ [] ∧ structPre.isPrefixOf iTy then
                   (iTy.drop 7).filter (fun c => c ≠ '.')
                 else []
               .ok ⟨.tuple (pairs.map (fun p => p.1)), expression, names, rawName⟩
           else if m.letters = ['f', 'u', 'n', 'c', 't', 'i', 'o', 'n'] then
             .ok ⟨.function, t, [], []⟩
           else if contractPre.isPrefixOf iTy then .ok ⟨.address, t, [], []⟩
           else .error .unsupportedArgType) = .ok p →
          p.stringKind = t := by
        intro varSize hc
        by_cases c1 : m.letters = ['i', 'n', 't']
        · rw [if_pos c1, Except.ok.injEq] at hc; subst hc; rfl
        rw [if_neg c1] at hc
        by_cases c2 : m.letters = ['u', 'i', 'n', 't']
        · rw [if_pos c2, Except.ok.injEq] at hc; subst hc; rfl
        rw [if_neg c2] at hc
        by_cases c3 : m.letters = ['b', 'o', 'o', 'l']
        · rw [if_pos c3, Except.ok.injEq] at hc; subst hc; rfl
        rw [if_neg c3] at hc
        by_cases c4 : m.letters = ['a', 'd', 'd', 'r', 'e', 's', 's']
        · rw [if_pos c4, Except.ok.injEq] at hc; subst hc; rfl
        rw [if_neg c4] at hc
        by_cases c5 : m.letters = ['s', 't', 'r', 'i', 'n', 'g']
        · rw [if_pos c5, Except.ok.injEq] at hc; subst hc; rfl
        rw [if_neg c5] at hc
        by_cases c6 : m.letters = ['b', 'y', 't', 'e', 's']
        · rw [if_pos c6] at hc
          by_cases c6a : varSize = 0
          · rw [if_pos c6a, Except.ok.injEq] at hc; subst hc; rfl
          rw [if_neg c6a] at hc
          by_cases c6b : varSize > 32
          · rw [if_pos c6b] at hc; exact Except.noConfusion hc
          · rw [if_neg c6b, Except.ok.injEq] at hc; subst hc; rfl
        rw [if_neg c6] at hc
        by_cases c7 : m.letters = ['t', 'u', 'p', 'l', 'e']
        · rw [if_pos c7] at hc
          cases hloop : newTypeTupleLoop comps [] with
          | error e => simp only [hloop] at hc; exact Except.noConfusion hc
          | ok pr =>
            obtain ⟨pairs, names⟩ := pr
            simp only [hloop] at hc
            rw [Except.ok.injEq] at hc
            subst hc
            exact absurd rfl (ht _)
        rw [if_neg c7] at hc
        by_cases c8 : m.letters = ['f', 'u', 'n', 'c', 't', 'i', 'o', 'n']
        · rw [if_pos c8, Except.ok.injEq] at hc; subst hc; rfl
        rw [if_neg c8] at hc
        by_cases c9 : contractPre.isPrefixOf iTy = true
        · rw [if_pos c9, Except.ok.injEq] at hc; subst hc; rfl
        · rw [if_neg c9] at hc; exact Except.noConfusion hc
      by_cases hd : m.firstDigits = []
      · rw [if_neg (not_not_intro hd)] at h
        by_cases hw : m.whole = ['u', 'i', 'n', 't'] ∨ m.whole = ['i', 'n', 't']
        · rw [if_pos hw] at h
          simp only [] at h
          exact Except.noConfusion h
        · rw [if_neg hw] at h
          simp only [] at h
          exact hchain 0 h
      · rw [if_pos hd] at h
        cases ha : atoi m.sizeStr with
        | error e => simp only [ha] at h; exact Except.noConfusion h
        | ok vs => simp only [ha] at h; exact hchain vs h

/-- Claim C9 (amended): the canonical string of a parsed type is
reconstructed from the recursively resolved sub-parts only for tuples
(`(` ++ the components' canonical strings joined by `,` ++ `)`); for a
slice or array it is the element's canonical string with the final raw
bracket group copied verbatim from the input, and for every elementary
(non-bracket, non-tuple) type it is the input string copied verbatim,
so whitespace does not normalize away.  Scenario 6 holds:
`uint256[2][]` parses to slice-of-array(2)-of-uint256 with canonical
string `uint256[2][]`. -/
theorem c9_canonical_string :
    (∀ (t iTy : List Char) (comps : List ArgMarshal) (p : ParsedTy),
        newType t iTy comps = .ok p → countChar '[' t = 0 →
        (∀ es, p.shape ≠ .tuple es) → p.stringKind = t) ∧
    newType ['u', 'i', 'n', 't', '2', '5', '6', '[', '2', ']', '[', ']'] [] [] =
      .ok ⟨.slice (.array 2 (.uint 256)),
           ['u', 'i', 'n', 't', '2', '5', '6', '[', '2', ']', '[', ']'], [], []⟩ ∧
    newType ['t', 'u', 'p', 'l', 'e'] []
        [.mk ['a'] ['u', 'i', 'n', 't', '2', '5', '6'] [] [],
         .mk ['b'] ['s', 't', 'r', 'i', 'n', 'g'] [] []] =
      .ok ⟨.tuple [.uint 256, .string],
           ['(', 'u', 'i', 'n', 't', '2', '5', '6', ',', 's', 't', 'r', 'i', 'n', 'g', ')'],
           [['a'], ['b']], []⟩ ∧
    newType ['u', 'i', 'n', 't', '2', '5', '6', '[', '2', ']', '[', ' ', ']'] [] [] =
      .ok ⟨.slice (.array 2 (.uint 256)),
           ['u', 'i', 'n', 't', '2', '5', '6', '[', '2', ']', '[', ' ', ']'], [], []⟩ :=
  ⟨newType_elementary_verbatim, newType_uint256arr2slice, newType_tupleAB,
   newType_uint256arr2sliceSp⟩

theorem c9_canonical_string_witness :
    newType [' ', 'b', 'o', 'o', 'l'] [] [] =
      .ok ⟨.bool, [' ', 'b', 'o', 'o', 'l'], [], []⟩ ∧
    countChar '[' [' ', 'b', 'o', 'o', 'l'] = 0 ∧
    (⟨.bool, [' ', 'b', 'o', 'o', 'l'], [], []⟩ : ParsedTy).stringKind =
      [' ', 'b', 'o', 'o', 'l'] :=
  ⟨newType_spaceBool, rfl,
   c9_canonical_string.1 [' ', 'b', 'o', 'o', 'l'] [] [] _ newType_spaceBool rfl
     (fun es hh => AbiType.noConfusion hh)⟩

/-- Claim C9, counterexample: `" bool"` and `"bool"` differ only in
whitespace and both parse successfully, but their canonical strings
differ — the elementary branch of `NewType` keeps `stringKind` equal to
the original input, whitespace included. -/
theorem c9_counterexample :
    newType ['b', 'o', 'o', 'l'] [] [] = .ok ⟨.bool, ['b', 'o', 'o', 'l'], [], []⟩ ∧
    newType [' ', 'b', 'o', 'o', 'l'] [] [] =
      .ok ⟨.bool, [' ', 'b', 'o', 'o', 'l'], [], []⟩ ∧
    ([' ', 'b', 'o', 'o', 'l'] : List Char) ≠ ['b', 'o', 'o', 'l'] :=
  ⟨newType_bool, newType_spaceBool, by decide⟩

/-! ### Claim C1: round-trip groundwork — byte-level lemmas -/

theorem deBytes_go (bs : List Nat) : ∀ a,
    List.foldl (fun a b => a * 256 + b) a bs = a * 256 ^ bs.length + deBytes bs := by
  induction bs with
  | nil => intro a; simp [deBytes]
  | cons b cs ih =>
    intro a
    rw [List.foldl_cons, ih]
    rw [show deBytes (b :: cs) = List.foldl (fun a b => a * 256 + b) (0 * 256 + b) cs
      from rfl]
    rw [ih]
    simp [List.length_cons]
    ring

theorem deBytes_append (a b : List Nat) :
    deBytes (a ++ b) = deBytes a * 256 ^ b.length + deBytes b := by
  rw [show deBytes (a ++ b) = List.foldl (fun a b => a * 256 + b) 0 (a ++ b) from rfl]
  rw [List.foldl_append]
  rw [deBytes_go]
  rw [show List.foldl (fun a b => a * 256 + b) 0 a = deBytes a from rfl]

theorem deBytes_beBytes (k : Nat) : ∀ n, deBytes (beBytes k n) = n % 256 ^ k := by
  induction k with
  | zero => intro n; simp [beBytes, deBytes, Nat.mod_one]
  | succ k ih =>
    intro n
    rw [beBytes, deBytes_append, ih]
    have h1 : deBytes [n % 256] = n % 256 := by simp [deBytes]
    rw [h1]
    have h2 : (256 : Nat) ^ (k + 1) = 256 * 256 ^ k := by rw [Nat.pow_succ]; ring
    rw [h2, Nat.mod_mul]
    simp [List.length_cons]
    omega

theorem beBytes_add (a b : Nat) : ∀ n, beBytes (a + b) n =
    beBytes a (n / 256 ^ b) ++ beBytes b n := by
  induction b with
  | zero => intro n; simp [beBytes]
  | succ b ih =>
    intro n
    rw [show a + (b + 1) = (a + b) + 1 from rfl, beBytes, ih, beBytes]
    rw [List.append_assoc]
    rw [Nat.div_div_eq_div_mul]
    have hp : 256 * 256 ^ b = 256 ^ (b + 1) := by rw [Nat.pow_succ]; ring
    rw [hp]

/-- The low 8 bytes of a 32-byte word. -/
theorem beBytes_drop24 (n : Nat) : (beBytes 32 n).drop 24 = beBytes 8 n := by
  rw [show (32 : Nat) = 24 + 8 from rfl, beBytes_add]
  exact List.drop_left' (beBytes_length 24 _)

theorem rightPad_take (bs : List Nat) (l : Nat) : (rightPad bs l).take bs.length = bs := by
  rw [rightPad]
  split
  · simp
  · exact List.take_left bs _

/-! ### Claim C1: well-formedness helpers -/

theorem wfTypeAll_mem : ∀ (l : List AbiType), wfTypeAll l = true →
    ∀ x ∈ l, wfType x = true := by
  intro l
  induction l with
  | nil => intro _ x hx; simp at hx
  | cons y ys ih =>
    intro hall x hx
    rw [wfTypeAll] at hall
    simp at hall
    cases hx with
    | head => exact hall.1
    | tail _ hx => exact ih hall.2 x hx

theorem noZeroSized_tuple_mem : ∀ (l : List AbiType), noZeroSized (.tuple l) = true →
    ∀ x ∈ l, noZeroSized x = true := by
  intro l
  induction l with
  | nil => intro _ x hx; simp at hx
  | cons y ys ih =>
    intro hall x hx
    rw [noZeroSized] at hall
    simp at hall
    cases hx with
    | head => exact hall.1
    | tail _ hx => exact ih hall.2 x hx

theorem noZeroSized_tuple_ne_nil (l : List AbiType) (h : noZeroSized (.tuple l) = true) :
    l ≠ [] := by
  intro heq
  subst heq
  rw [noZeroSized] at h
  exact Bool.noConfusion h

theorem sumTypeSizes_bounds : ∀ (l : List AbiType), l ≠ [] →
    (∀ x ∈ l, 32 ≤ getTypeSize x ∧ getTypeSize x % 32 = 0) →
    32 ≤ sumTypeSizes l ∧ sumTypeSizes l % 32 = 0 := by
  intro l
  induction l with
  | nil => intro hne; exact absurd rfl hne
  | cons y ys ih =>
    intro _ hl
    rw [sumTypeSizes]
    have hy := hl y (by simp)
    cases ys with
    | nil => rw [sumTypeSizes]; omega
    | cons z zs =>
      have := ih (by simp) (fun x hx => hl x (by simp [hx]))
      omega

theorem getTypeSize_dyn (t : AbiType) (h : isDynamicType t = true) :
    getTypeSize t = 32 := by
  rw [typeSize_eq_spec, getTypeSizeSpec_dyn t]
  rw [← isDynamic_eq_spec]
  exact h

/-- Head sizes of well-formed types without zero-field tuples are
positive multiples of 32. -/
theorem gts_bounds :
    ∀ n t, sizeOf t ≤ n → wfType t = true → noZeroSized t = true →
      32 ≤ getTypeSize t ∧ getTypeSize t % 32 = 0 := by
  intro n
  induction n with
  | zero => intro t ht; exact absurd (lt_of_lt_of_le (sizeOf_pos t) ht) (by omega)
  | succ n ih =>
    intro t ht hwf hnz
    by_cases hd : isDynamicType t = true
    · rw [getTypeSize_dyn t hd]; omega
    · cases t with
      | array sz e =>
        have hde : isDynamicType e = false := by
          rw [isDynamicType] at hd
          simpa using hd
        rw [getTypeSize_array, if_neg (by simp [hde])]
        have hse : sizeOf e ≤ n := by
          have := AbiType.array.sizeOf_spec sz e
          omega
        rw [wfType] at hwf
        simp at hwf
        rw [noZeroSized] at hnz
        have he := ih e hse hwf.2 hnz
        by_cases hat : isArrayOrTuple e = true
        · rw [if_pos hat]
          constructor
          · exact le_trans he.1 (Nat.le_mul_of_pos_left _ hwf.1)
          · rw [Nat.mul_mod, he.2, Nat.mul_zero, Nat.zero_mod]
        · rw [if_neg hat]
          constructor
          · have : 1 * 32 ≤ sz * 32 := Nat.mul_le_mul_right 32 hwf.1
            omega
          · exact Nat.mul_mod_left sz 32
      | tuple es =>
        rw [getTypeSize_tuple, if_neg hd]
        rw [wfType] at hwf
        refine sumTypeSizes_bounds es (noZeroSized_tuple_ne_nil es hnz) ?_
        intro x hx
        have hsx : sizeOf x ≤ n := by
          have h1 := List.sizeOf_lt_of_mem hx
          have h2 := AbiType.tuple.sizeOf_spec es
          omega
        exact ih x hsx (wfTypeAll_mem es hwf x hx) (noZeroSized_tuple_mem es hnz x hx)
      | int s => exact ⟨Nat.le_refl _, Nat.mod_self _⟩
      | uint s => exact ⟨Nat.le_refl _, Nat.mod_self _⟩
      | bool => exact ⟨Nat.le_refl _, Nat.mod_self _⟩
      | string => exact ⟨Nat.le_refl _, Nat.mod_self _⟩
      | slice e => rw [isDynamicType] at hd; simp at hd
      | address => exact ⟨Nat.le_refl _, Nat.mod_self _⟩
      | fixedBytes s => exact ⟨Nat.le_refl _, Nat.mod_self _⟩
      | bytes => rw [isDynamicType] at hd; simp at hd
      | function => exact ⟨Nat.le_refl _, Nat.mod_self _⟩

/-! ### Claim C1: encoded lengths of static types -/

theorem getTypeSize_array_static (sz : Nat) (e : AbiType)
    (h : isDynamicType e = false) :
    getTypeSize (.array sz e) = sz * getTypeSize e := by
  rw [getTypeSize_array, if_neg (by simp [h])]
  by_cases hat : isArrayOrTuple e = true
  · rw [if_pos hat]
  · rw [if_neg hat]
    cases e with
    | int s => rfl
    | uint s => rfl
    | bool => rfl
    | address => rfl
    | fixedBytes s => rfl
    | function => rfl
    | string => exact absurd h (by rw [isDynamicType]; simp)
    | bytes => exact absurd h (by rw [isDynamicType]; simp)
    | slice e2 => exact absurd h (by rw [isDynamicType]; simp)
    | array sz2 e2 => exact absurd (show isArrayOrTuple (.array sz2 e2) = true from rfl) hat
    | tuple es2 => exact absurd (show isArrayOrTuple (.tuple es2) = true from rfl) hat

/-- Head-section and tail-section lengths of the element loop, given the
static-length property of the element packer. -/
theorem packElems_lengths (e : AbiType)
    (He : ∀ v enc, conforms v e = true → packValue e v = .ok enc →
      isDynamicType e = false → enc.length = getTypeSize e) :
    ∀ (vs : List Value) (off : Nat) (H T : List Nat),
      conformsAll vs e = true → packElems e vs off = .ok (H, T) →
      H.length = getTypeSize e * vs.length ∧ (isDynamicType e = false → T = []) := by
  intro vs
  induction vs with
  | nil =>
    intro off H T _ hp
    rw [packElems] at hp
    rw [Except.ok.injEq] at hp
    injection hp with h1 h2
    subst h1; subst h2
    simp
  | cons v rest ih =>
    intro off H T hconf hp
    rw [conformsAll] at hconf
    simp at hconf
    rw [packElems] at hp
    cases hpv : packValue e v with
    | error err => rw [hpv] at hp; exact Except.noConfusion hp
    | ok val =>
      rw [hpv] at hp
      simp only [] at hp
      by_cases hdyn : isDynamicType e = true
      · rw [if_pos hdyn] at hp
        cases hrest : packElems e rest (off + val.length) with
        | error err => rw [hrest] at hp; exact Except.noConfusion hp
        | ok ht =>
          rw [hrest] at hp
          simp only [] at hp
          rw [Except.ok.injEq] at hp
          injection hp with h1 h2
          subst h1; subst h2
          have := ih (off + val.length) ht.1 ht.2 hconf.2 (by rw [hrest])
          constructor
          · rw [List.length_append, beBytes_length, this.1, getTypeSize_dyn e hdyn]
            simp [List.length_cons]
            ring
          · intro hst; rw [hst] at hdyn; exact Bool.noConfusion hdyn
      · rw [if_neg hdyn] at hp
        have hst : isDynamicType e = false := by
          cases hh : isDynamicType e
          · rfl
          · exact absurd hh hdyn
        cases hrest : packElems e rest off with
        | error err => rw [hrest] at hp; exact Except.noConfusion hp
        | ok ht =>
          rw [hrest] at hp
          simp only [] at hp
          rw [Except.ok.injEq] at hp
          injection hp with h1 h2
          subst h1; subst h2
          have hlrest := ih off ht.1 ht.2 hconf.2 (by rw [hrest])
          have hlv := He v val hconf.1 hpv hst
          constructor
          · rw [List.length_append, hlv, hlrest.1]
            simp [List.length_cons]
            ring
          · intro _; exact hlrest.2 hst

/-- Head-section length of the field loop: always the sum of the field
head sizes; the tail is empty when no field is dynamic. -/
theorem packFields_lengths (es : List AbiType)
    (He : ∀ x ∈ es, ∀ v enc, conforms v x = true → packValue x v = .ok enc →
      isDynamicType x = false → enc.length = getTypeSize x) :
    ∀ (vs : List Value) (off : Nat) (H T : List Nat),
      conformsZip vs es = true → packFields es vs off = .ok (H, T) →
      H.length = sumTypeSizes es ∧ (anyDynamic es = false → T = []) := by
  induction es with
  | nil =>
    intro vs off H T _ hp
    rw [packFields] at hp
    rw [Except.ok.injEq] at hp
    injection hp with h1 h2
    subst h1; subst h2
    simp [sumTypeSizes]
  | cons e es' ih =>
    intro vs off H T hconf hp
    cases vs with
    | nil => exact Bool.noConfusion hconf
    | cons v vs' =>
      rw [conformsZip] at hconf
      simp at hconf
      rw [packFields] at hp
      cases hpv : packValue e v with
      | error err => rw [hpv] at hp; exact Except.noConfusion hp
      | ok val =>
        rw [hpv] at hp
        simp only [] at hp
        have ihe := ih (fun x hx => He x (by simp [hx]))
        by_cases hdyn : isDynamicType e = true
        · rw [if_pos hdyn] at hp
          cases hrest : packFields es' vs' (off + val.length) with
          | error err => rw [hrest] at hp; exact Except.noConfusion hp
          | ok ht =>
            rw [hrest] at hp
            simp only [] at hp
            rw [Except.ok.injEq] at hp
            injection hp with h1 h2
            subst h1; subst h2
            have := ihe vs' (off + val.length) ht.1 ht.2 hconf.2 (by rw [hrest])
            constructor
            · rw [List.length_append, beBytes_length, this.1, sumTypeSizes,
                getTypeSize_dyn e hdyn]
            · intro hall
              rw [anyDynamic] at hall
              rw [hdyn] at hall
              exact Bool.noConfusion hall
        · rw [if_neg hdyn] at hp
          have hst : isDynamicType e = false := by
            cases hh : isDynamicType e
            · rfl
            · exact absurd hh hdyn
          cases hrest : packFields es' vs' off with
          | error err => rw [hrest] at hp; exact Except.noConfusion hp
          | ok ht =>
            rw [hrest] at hp
            simp only [] at hp
            rw [Except.ok.injEq] at hp
            injection hp with h1 h2
            subst h1; subst h2
            have hlrest := ihe vs' off ht.1 ht.2 hconf.2 (by rw [hrest])
            have hlv := He e (by simp) v val hconf.1 hpv hst
            constructor
            · rw [List.length_append, hlv, hlrest.1, sumTypeSizes]
            · intro hall
              rw [anyDynamic, hst] at hall
              simp at hall
              exact hlrest.2 (by simp [hall])

theorem packValue_static_length_aux :
    ∀ n t, sizeOf t ≤ n → wfType t = true → noZeroSized t = true →
      ∀ v enc, conforms v t = true → packValue t v = .ok enc →
        isDynamicType t = false → enc.length = getTypeSize t := by
  intro n
  induction n with
  | zero => intro t ht; exact absurd (lt_of_lt_of_le (sizeOf_pos t) ht) (by omega)
  | succ n ih =>
    intro t ht hwf hnz v enc hconf hc hst
    cases t with
    | uint s =>
      cases v <;> try exact Bool.noConfusion hconf
      case vUint m =>
      simp [packValue, typeCheckV, packElement] at hc
      rw [← hc, beBytes_length]
      rfl
    | int s =>
      cases v <;> try exact Bool.noConfusion hconf
      case vInt i =>
      simp [packValue, typeCheckV, packElement] at hc
      rw [← hc, beBytes_length]
      rfl
    | bool =>
      cases v <;> try exact Bool.noConfusion hconf
      case vBool b =>
      simp [packValue, typeCheckV, packElement] at hc
      rw [← hc, beBytes_length]
      rfl
    | address =>
      cases v <;> try exact Bool.noConfusion hconf
      case vAddress bs =>
      rw [conforms] at hconf
      simp at hconf
      simp [packValue, typeCheckV, packElement] at hc
      rw [← hc, leftPad_length, hconf.1]
      rfl
    | fixedBytes s =>
      cases v <;> try exact Bool.noConfusion hconf
      case vFixedBytes bs =>
      rw [conforms] at hconf
      simp at hconf
      rw [wfType] at hwf
      simp at hwf
      simp [packValue, typeCheckV, packElement, hconf.1] at hc
      rw [← hc, rightPad_length, hconf.1]
      have : max 32 s = 32 := by omega
      rw [this]
      rfl
    | function =>
      cases v <;> try exact Bool.noConfusion hconf
      case vFunction bs =>
      rw [conforms] at hconf
      simp at hconf
      simp [packValue, typeCheckV, packElement] at hc
      rw [← hc, rightPad_length, hconf.1]
      rfl
    | string => exact Bool.noConfusion hst
    | bytes => exact Bool.noConfusion hst
    | slice e => exact Bool.noConfusion hst
    | array sz e =>
      cases v <;> try exact Bool.noConfusion hconf
      case vList vs =>
      rw [conforms] at hconf
      simp at hconf
      have hde : isDynamicType e = false := by
        rw [isDynamicType] at hst
        exact hst
      rw [wfType] at hwf
      simp at hwf
      rw [noZeroSized] at hnz
      have hse : sizeOf e ≤ n := by
        have := AbiType.array.sizeOf_spec sz e
        omega
      have He := ih e hse hwf.2 hnz
      simp [packValue, typeCheckV, hconf.1] at hc
      cases hpe : packElems e vs (getTypeSize e * sz) with
      | error err =>
        simp only [hpe] at hc
        exact Except.noConfusion hc
      | ok ht =>
        obtain ⟨H1, T1⟩ := ht
        simp only [hpe] at hc
        rw [Except.ok.injEq] at hc
        subst hc
        have hel := packElems_lengths e He vs (getTypeSize e * sz) H1 T1 hconf.2 hpe
        rw [List.length_append, hel.1, hel.2 hde, hconf.1]
        rw [getTypeSize_array_static sz e hde]
        simp [List.length_nil]
        ring
    | tuple es =>
      cases v <;> try exact Bool.noConfusion hconf
      case vTuple vs =>
      rw [conforms] at hconf
      rw [wfType] at hwf
      have He : ∀ x ∈ es, ∀ v enc, conforms v x = true → packValue x v = .ok enc →
          isDynamicType x = false → enc.length = getTypeSize x := by
        intro x hx
        have hsx : sizeOf x ≤ n := by
          have h1 := List.sizeOf_lt_of_mem hx
          have h2 := AbiType.tuple.sizeOf_spec es
          omega
        exact ih x hsx (wfTypeAll_mem es hwf x hx) (noZeroSized_tuple_mem es hnz x hx)
      have hsta : anyDynamic es = false := by
        rw [isDynamicType] at hst
        exact hst
      simp [packValue, typeCheckV] at hc
      cases hpf : packFields es vs (sumTypeSizes es) with
      | error err =>
        simp only [hpf] at hc
        exact Except.noConfusion hc
      | ok ht =>
        obtain ⟨H1, T1⟩ := ht
        simp only [hpf] at hc
        rw [Except.ok.injEq] at hc
        subst hc
        have hfl := packFields_lengths es He vs (sumTypeSizes es) H1 T1 hconf hpf
        rw [List.length_append, hfl.1, hfl.2 hsta]
        rw [getTypeSize_tuple, if_neg (by rw [isDynamicType]; simp [hsta])]
        simp [List.length_nil]

/-- Static types pack to exactly their head size. -/
theorem packValue_static_length (t : AbiType) (hwf : wfType t = true)
    (hnz : noZeroSized t = true) :
    ∀ v enc, conforms v t = true → packValue t v = .ok enc →
      isDynamicType t = false → enc.length = getTypeSize t :=
  packValue_static_length_aux (sizeOf t) t (Nat.le_refl _) hwf hnz

/-! ### Claim C1: elementary decode-encode inverses -/

theorem pow256_32 : (256 : Nat) ^ 32 = 2 ^ 256 := by norm_num

theorem readInteger_uint (s n : Nat) (hns : n < 2 ^ s) (hs : s ≤ 256) :
    readInteger (.uint s) (beBytes 32 n) = .ok (.vUint n) := by
  have hn : deBytes (beBytes 32 n) = n := by
    rw [deBytes_beBytes, pow256_32]
    exact Nat.mod_eq_of_lt (lt_of_lt_of_le hns (Nat.pow_le_pow_right (by norm_num) hs))
  by_cases h8 : s = 8
  · subst h8
    have e1 : n < 2 ^ 64 := by omega
    have e2 : ¬ (255 < n) := by omega
    simp [readInteger, hn, e1, e2] <;> omega
  by_cases h16 : s = 16
  · subst h16
    have e1 : n < 2 ^ 64 := by omega
    have e2 : ¬ (65535 < n) := by omega
    simp [readInteger, hn, e1, e2] <;> omega
  by_cases h32 : s = 32
  · subst h32
    have e1 : n < 2 ^ 64 := by omega
    have e2 : ¬ (4294967295 < n) := by omega
    simp [readInteger, hn, e1, e2] <;> omega
  by_cases h64 : s = 64
  · subst h64
    have e1 : n < 2 ^ 64 := by omega
    simp [readInteger, hn, e1] <;> omega
  · simp [readInteger, hn, h8, h16, h32, h64] <;> omega

theorem u256OfInt_lt (i : Int) : u256OfInt i < 2 ^ 256 := by
  rw [u256OfInt]
  have h1 : i % (2 : Int) ^ 256 < 2 ^ 256 :=
    Int.emod_lt_of_pos i (by positivity)
  omega

theorem u256OfInt_cast (i : Int) : ((u256OfInt i : Nat) : Int) = i % (2 : Int) ^ 256 := by
  rw [u256OfInt]
  exact Int.toNat_of_nonneg (Int.emod_nonneg i (by positivity))

theorem readInteger_int (s : Nat) (i : Int)
    (h1 : -((2 : Int) ^ (s - 1)) ≤ i) (h2 : i < (2 : Int) ^ (s - 1))
    (hs0 : 0 < s) (hs : s ≤ 256) :
    readInteger (.int s) (beBytes 32 (u256OfInt i)) = .ok (.vInt i) := by
  have hm : deBytes (beBytes 32 (u256OfInt i)) = u256OfInt i := by
    rw [deBytes_beBytes, pow256_32]
    exact Nat.mod_eq_of_lt (u256OfInt_lt i)
  have hpow : (2 : Int) ^ (s - 1) ≤ (2 : Int) ^ 255 :=
    pow_le_pow_right₀ (by norm_num) (by omega)
  have hlo : -((2 : Int) ^ 255) ≤ i := le_trans (neg_le_neg hpow) h1
  have hhi : i < (2 : Int) ^ 255 := lt_of_lt_of_le h2 hpow
  have hcast := u256OfInt_cast i
  have hlt := u256OfInt_lt i
  rcases le_or_lt 0 i with hpos | hneg
  case' inl =>
    have hieq : i % (2 : Int) ^ 256 = i := by omega
    have hsmall : u256OfInt i < 2 ^ 255 := by omega
    have hbit : (u256OfInt i).testBit 255 = false := by
      rw [Nat.testBit_to_div_mod]
      rw [Nat.div_eq_of_lt hsmall]
      rfl
    have hval : ((u256OfInt i : Nat) : Int) = i := by omega
    by_cases h8 : s = 8
    · subst h8
      have hb : (2 : Int) ^ (8 - 1) = 128 := by norm_num
      have e1 : -((2 : Int) ^ 63) ≤ i := by omega
      have e2 : i < (2 : Int) ^ 63 := by omega
      have e3 : ¬ (i < -128) := by omega
      have e4 : ¬ (127 < i) := by omega
      simp [readInteger, hm, hbit, hval, e1, e2, e3, e4] <;> omega
    by_cases h16 : s = 16
    · subst h16
      have hb : (2 : Int) ^ (16 - 1) = 32768 := by norm_num
      have e1 : -((2 : Int) ^ 63) ≤ i := by omega
      have e2 : i < (2 : Int) ^ 63 := by omega
      have e3 : ¬ (i < -32768) := by omega
      have e4 : ¬ (32767 < i) := by omega
      simp [readInteger, hm, hbit, hval, e1, e2, e3, e4] <;> omega
    by_cases h32 : s = 32
    · subst h32
      have hb : (2 : Int) ^ (32 - 1) = 2147483648 := by norm_num
      have e1 : -((2 : Int) ^ 63) ≤ i := by omega
      have e2 : i < (2 : Int) ^ 63 := by omega
      have e3 : ¬ (i < -2147483648) := by omega
      have e4 : ¬ (2147483647 < i) := by omega
      simp [readInteger, hm, hbit, hval, e1, e2, e3, e4] <;> omega
    by_cases h64 : s = 64
    · subst h64
      have hb : (2 : Int) ^ (64 - 1) = 2 ^ 63 := by norm_num
      have e1 : -((2 : Int) ^ 63) ≤ i := by omega
      have e2 : i < (2 : Int) ^ 63 := by omega
      simp [readInteger, hm, hbit, hval, e1, e2] <;> omega
    · simp [readInteger, hm, hbit, hval, h8, h16, h32, h64] <;> omega
  case' inr =>
    have hieq : i % (2 : Int) ^ 256 = i + 2 ^ 256 := by omega
    have hbig : 2 ^ 255 ≤ u256OfInt i := by omega
    have hdiv : u256OfInt i / 2 ^ 255 = 1 := by omega
    have hbit : (u256OfInt i).testBit 255 = true := by
      rw [Nat.testBit_to_div_mod]
      rw [hdiv]
      rfl
    by_cases h8 : s = 8
    · subst h8
      simp [readInteger, hm, hbit]
      split
      · exfalso; omega
      · simp only [Except.ok.injEq, Value.vInt.injEq]; omega
    by_cases h16 : s = 16
    · subst h16
      simp [readInteger, hm, hbit]
      split
      · exfalso; omega
      · simp only [Except.ok.injEq, Value.vInt.injEq]; omega
    by_cases h32 : s = 32
    · subst h32
      simp [readInteger, hm, hbit]
      split
      · exfalso; omega
      · simp only [Except.ok.injEq, Value.vInt.injEq]; omega
    by_cases h64 : s = 64
    · subst h64
      simp [readInteger, hm, hbit]
      split
      · exfalso; omega
      · simp only [Except.ok.injEq, Value.vInt.injEq]; omega
    · simp [readInteger, hm, hbit, h8, h16, h32, h64]
      omega

theorem readBool_rt (b : Bool) :
    readBool (beBytes 32 (if b then 1 else 0)) = .ok (.vBool b) := by
  cases b <;> rfl

theorem leftPad_drop12 (bs : List Nat) (h : bs.length = 20) :
    (leftPad bs 32).drop 12 = bs := by
  rw [leftPad, if_neg (by omega), h]
  exact List.drop_left' (by simp)

theorem readFixedBytes_rt (sz : Nat) (bs : List Nat) (h : bs.length = sz)
    (hsz : sz ≤ 32) :
    readFixedBytes sz (rightPad bs 32) = .ok (.vFixedBytes bs) := by
  rw [readFixedBytes, ← h, rightPad_take]

theorem readFunctionType_rt (bs : List Nat) (h : bs.length = 24) :
    readFunctionType (rightPad bs 32) = .ok (.vFunction bs) := by
  have h1 : rightPad bs 32 = bs ++ List.replicate 8 0 := by
    rw [rightPad, if_neg (by omega), h]
  rw [h1, readFunctionType]
  rw [List.drop_left' h]
  rw [show (List.replicate 8 (0 : Nat)).take 8 = List.replicate 8 0 from by decide]
  rw [show deBytes (List.replicate 8 (0 : Nat)) = 0 from by decide]
  simp
  rw [List.take_left' h]

theorem drop_concat_at (output rest : List Nat) (p k : Nat) (pref : List Nat)
    (hp : output.drop p = pref ++ rest) (hk : pref.length = k) :
    output.drop (p + k) = rest := by
  have h2 : output.drop (p + k) = (output.drop p).drop k := by
    rw [List.drop_drop, Nat.add_comm]
  rw [h2, hp, List.drop_left' hk]

theorem drop_split_length (output : List Nat) (p : Nat) (enc suf : List Nat)
    (h : output.drop p = enc ++ suf) (hne : 0 < enc.length) :
    p + enc.length + suf.length = output.length := by
  have hl := congrArg List.length h
  rw [List.length_drop, List.length_append] at hl
  omega

theorem unpackElemsLoop_rt (e : AbiType)
    (hrt : ∀ v enc, conforms v e = true → packValue e v = .ok enc →
      (isDynamicType e = false → StaticRT e v enc) ∧
      (isDynamicType e = true → DynRT e v enc))
    (hlen : ∀ v enc, conforms v e = true → packValue e v = .ok enc →
      isDynamicType e = false → enc.length = getTypeSize e) :
    ∀ (vs : List Value) (doneH Hrem doneT Trem suf : List Nat),
      conformsAll vs e = true →
      packElems e vs (doneH.length + Hrem.length + doneT.length) = .ok (Hrem, Trem) →
      (doneH ++ Hrem ++ doneT ++ Trem ++ suf).length < 2 ^ 63 →
      unpackElemsLoop e (doneH ++ Hrem ++ doneT ++ Trem ++ suf) doneH.length vs.length
        = .ok vs := by
  intro vs
  induction vs with
  | nil =>
    intro doneH Hrem doneT Trem suf _ hp _
    rw [packElems] at hp
    rw [Except.ok.injEq] at hp
    injection hp with h1 h2
    subst h1; subst h2
    rw [show ([] : List Value).length = 0 from rfl]
    simp only [unpackElemsLoop]
  | cons v rest ih =>
    intro doneH Hrem doneT Trem suf hconf hp hlt
    rw [conformsAll] at hconf
    simp at hconf
    rw [packElems] at hp
    cases hpv : packValue e v with
    | error err => rw [hpv] at hp; exact Except.noConfusion hp
    | ok val =>
      rw [hpv] at hp
      simp only [] at hp
      by_cases hdynb : isDynamicType e = true
      · -- dynamic element: head gets an offset word, tail gets the encoding
        rw [if_pos hdynb] at hp
        cases hrest : packElems e rest
            (doneH.length + Hrem.length + doneT.length + val.length) with
        | error err => rw [hrest] at hp; exact Except.noConfusion hp
        | ok ht =>
          obtain ⟨h1, t2⟩ := ht
          rw [hrest] at hp
          simp only [] at hp
          rw [Except.ok.injEq, Prod.mk.injEq] at hp
          obtain ⟨hH, hT⟩ := hp
          have hHlen : Hrem.length = 32 + h1.length := by
            rw [← hH]
            simp [beBytes_length]
          rw [hHlen] at hH hrest
          subst hH
          subst hT
          have hg32 : getTypeSize e = 32 := getTypeSize_dyn e hdynb
          set off := doneH.length + (32 + h1.length) + doneT.length with hoff
          have hreg1 : doneH ++ (beBytes 32 off ++ h1) ++ doneT ++ (val ++ t2) ++ suf =
              doneH ++ ((beBytes 32 off ++ h1) ++ (doneT ++ ((val ++ t2) ++ suf))) := by
            simp [List.append_assoc]
          have hreg2 : doneH ++ (beBytes 32 off ++ h1) ++ doneT ++ (val ++ t2) ++ suf =
              (doneH ++ beBytes 32 off ++ h1 ++ doneT) ++ (val ++ (t2 ++ suf)) := by
            simp [List.append_assoc]
          have hreg3 : doneH ++ (beBytes 32 off ++ h1) ++ doneT ++ (val ++ t2) ++ suf =
              (doneH ++ beBytes 32 off) ++ h1 ++ (doneT ++ val) ++ t2 ++ suf := by
            simp [List.append_assoc]
          have hlensum : (doneH ++ (beBytes 32 off ++ h1) ++ doneT ++ (val ++ t2) ++
              suf).length =
              doneH.length + (32 + h1.length) + doneT.length + (val.length + t2.length) +
                suf.length := by
            simp [List.length_append, beBytes_length]
            omega
          have hup : unpackAt doneH.length e
              (doneH ++ (beBytes 32 off ++ h1) ++ doneT ++ (val ++ t2) ++ suf) = .ok v := by
            refine (hrt v val hconf.1 hpv).2 hdynb _ doneH.length off (t2 ++ suf) ?_ ?_ ?_ ?_
            · exact hlt
            · rw [hlensum]; omega
            · rw [hreg1, List.drop_left]
              rw [List.append_assoc]
              exact List.take_left' (beBytes_length 32 off)
            · rw [hreg2]
              refine List.drop_left' ?_
              simp [List.length_append, beBytes_length]
              omega
          have harg : packElems e rest
              ((doneH ++ beBytes 32 off).length + h1.length + (doneT ++ val).length) =
              .ok (h1, t2) := by
            have heq : (doneH ++ beBytes 32 off).length + h1.length +
                (doneT ++ val).length =
                doneH.length + (32 + h1.length) + doneT.length + val.length := by
              simp [List.length_append, beBytes_length]
              omega
            rw [heq]
            exact hrest
          have hlt2 : ((doneH ++ beBytes 32 off) ++ h1 ++ (doneT ++ val) ++ t2 ++
              suf).length < 2 ^ 63 := by
            rw [← hreg3]
            exact hlt
          have hih := ih (doneH ++ beBytes 32 off) h1 (doneT ++ val) t2 suf
            hconf.2 harg hlt2
          rw [show (v :: rest).length = rest.length + 1 from rfl]
          simp only [unpackElemsLoop]
          rw [hup]
          simp only []
          rw [hg32]
          rw [show doneH.length + 32 = (doneH ++ beBytes 32 off).length from by
            simp [beBytes_length]]
          rw [hreg3]
          rw [hih]
      · -- static element: encoded in place in the head
        have hstatb : isDynamicType e = false := by
          cases hh : isDynamicType e
          · rfl
          · exact absurd hh hdynb
        rw [if_neg hdynb] at hp
        cases hrest : packElems e rest (doneH.length + Hrem.length + doneT.length) with
        | error err => rw [hrest] at hp; exact Except.noConfusion hp
        | ok ht =>
          obtain ⟨h1, t2⟩ := ht
          rw [hrest] at hp
          simp only [] at hp
          rw [Except.ok.injEq, Prod.mk.injEq] at hp
          obtain ⟨hH, hT⟩ := hp
          have hvlen : val.length = getTypeSize e := hlen v val hconf.1 hpv hstatb
          have hHlen : Hrem.length = getTypeSize e + h1.length := by
            rw [← hH]
            simp [List.length_append, hvlen]
          rw [hHlen] at hrest
          subst hH
          subst hT
          have hreg1 : doneH ++ (val ++ h1) ++ doneT ++ t2 ++ suf =
              doneH ++ val ++ (h1 ++ (doneT ++ (t2 ++ suf))) := by
            simp [List.append_assoc]
          have hreg3 : doneH ++ (val ++ h1) ++ doneT ++ t2 ++ suf =
              (doneH ++ val) ++ h1 ++ doneT ++ t2 ++ suf := by
            simp [List.append_assoc]
          have hup : unpackAt doneH.length e
              (doneH ++ (val ++ h1) ++ doneT ++ t2 ++ suf) = .ok v := by
            have hs := (hrt v val hconf.1 hpv).1 hstatb doneH
              (h1 ++ (doneT ++ (t2 ++ suf)))
            rw [hreg1]
            refine hs ?_
            rw [← hreg1]
            exact hlt
          have harg : packElems e rest
              ((doneH ++ val).length + h1.length + doneT.length) = .ok (h1, t2) := by
            have heq : (doneH ++ val).length + h1.length + doneT.length =
                doneH.length + (getTypeSize e + h1.length) + doneT.length := by
              simp [List.length_append, hvlen]
              omega
            rw [heq]
            exact hrest
          have hlt2 : ((doneH ++ val) ++ h1 ++ doneT ++ t2 ++ suf).length < 2 ^ 63 := by
            rw [← hreg3]
            exact hlt
          have hih := ih (doneH ++ val) h1 doneT t2 suf hconf.2 harg hlt2
          rw [show (v :: rest).length = rest.length + 1 from rfl]
          simp only [unpackElemsLoop]
          rw [hup]
          simp only []
          rw [show doneH.length + getTypeSize e = (doneH ++ val).length from by
            simp [hvlen]]
          rw [hreg3]
          rw [hih]

theorem slotAdvance_dyn (e : AbiType) (slot : Nat) (h : isDynamicType e = true) :
    slotAdvance e slot = slot + 1 := by
  cases e with
  | array sz e2 => rw [slotAdvance, if_pos h]
  | tuple es => rw [slotAdvance, if_pos h]
  | int s => rfl
  | uint s => rfl
  | bool => rfl
  | string => rfl
  | slice e2 => rfl
  | address => rfl
  | fixedBytes s => rfl
  | bytes => rfl
  | function => rfl

theorem slotAdvance_static (e : AbiType) (slot : Nat) (h : isDynamicType e = false)
    (hwf : wfType e = true) (hnz : noZeroSized e = true) :
    slotAdvance e slot * 32 = slot * 32 + getTypeSize e := by
  have hb := gts_bounds (sizeOf e) e (Nat.le_refl _) hwf hnz
  have hdvd : (32 : Nat) ∣ getTypeSize e := Nat.dvd_of_mod_eq_zero hb.2
  cases e with
  | array sz e2 =>
    rw [slotAdvance, if_neg (by simp [h])]
    rw [Nat.add_mul, Nat.div_mul_cancel hdvd]
  | tuple es =>
    rw [slotAdvance, if_neg (by simp [h])]
    rw [Nat.add_mul, Nat.div_mul_cancel hdvd]
  | int s => show (slot + 1) * 32 = slot * 32 + 32; ring
  | uint s => show (slot + 1) * 32 = slot * 32 + 32; ring
  | bool => show (slot + 1) * 32 = slot * 32 + 32; ring
  | address => show (slot + 1) * 32 = slot * 32 + 32; ring
  | fixedBytes s => show (slot + 1) * 32 = slot * 32 + 32; ring
  | function => show (slot + 1) * 32 = slot * 32 + 32; ring
  | string => exact Bool.noConfusion h
  | bytes => exact Bool.noConfusion h
  | slice e2 => exact Bool.noConfusion h

theorem unpackTuple_rt :
    ∀ (es : List AbiType),
      (∀ x ∈ es, wfType x = true ∧ noZeroSized x = true) →
      (∀ x ∈ es, ∀ v enc, conforms v x = true → packValue x v = .ok enc →
        (isDynamicType x = false → StaticRT x v enc) ∧
        (isDynamicType x = true → DynRT x v enc)) →
      ∀ (vs : List Value) (doneH Hrem doneT Trem suf : List Nat) (slot : Nat),
        conformsZip vs es = true →
        packFields es vs (doneH.length + Hrem.length + doneT.length) = .ok (Hrem, Trem) →
        (doneH ++ Hrem ++ doneT ++ Trem ++ suf).length < 2 ^ 63 →
        doneH.length = slot * 32 →
        unpackTuple es (doneH ++ Hrem ++ doneT ++ Trem ++ suf) slot = .ok vs := by
  intro es
  induction es with
  | nil =>
    intro _ _ vs doneH Hrem doneT Trem suf slot hconf hp _ _
    cases vs with
    | nil =>
      rw [packFields] at hp
      rw [Except.ok.injEq] at hp
      injection hp with h1 h2
      subst h1; subst h2
      simp only [unpackTuple]
    | cons v vs' => exact Bool.noConfusion hconf
  | cons f es' ih =>
    intro hwfall hrt vs doneH Hrem doneT Trem suf slot hconf hp hlt hslot
    cases vs with
    | nil => exact Bool.noConfusion hconf
    | cons v vs' =>
      rw [conformsZip] at hconf
      simp at hconf
      have hwff := (hwfall f (by simp)).1
      have hnzf := (hwfall f (by simp)).2
      have hrtf := hrt f (by simp)
      rw [packFields] at hp
      cases hpv : packValue f v with
      | error err => rw [hpv] at hp; exact Except.noConfusion hp
      | ok val =>
        rw [hpv] at hp
        simp only [] at hp
        by_cases hdynb : isDynamicType f = true
        · rw [if_pos hdynb] at hp
          cases hrest : packFields es' vs'
              (doneH.length + Hrem.length + doneT.length + val.length) with
          | error err => rw [hrest] at hp; exact Except.noConfusion hp
          | ok ht =>
            obtain ⟨h1, t2⟩ := ht
            rw [hrest] at hp
            simp only [] at hp
            rw [Except.ok.injEq, Prod.mk.injEq] at hp
            obtain ⟨hH, hT⟩ := hp
            have hHlen : Hrem.length = 32 + h1.length := by
              rw [← hH]
              simp [beBytes_length]
            rw [hHlen] at hH hrest
            subst hH
            subst hT
            set off := doneH.length + (32 + h1.length) + doneT.length with hoff
            have hreg1 : doneH ++ (beBytes 32 off ++ h1) ++ doneT ++ (val ++ t2) ++ suf =
                doneH ++ ((beBytes 32 off ++ h1) ++ (doneT ++ ((val ++ t2) ++ suf))) := by
              simp [List.append_assoc]
            have hreg2 : doneH ++ (beBytes 32 off ++ h1) ++ doneT ++ (val ++ t2) ++ suf =
                (doneH ++ beBytes 32 off ++ h1 ++ doneT) ++ (val ++ (t2 ++ suf)) := by
              simp [List.append_assoc]
            have hreg3 : doneH ++ (beBytes 32 off ++ h1) ++ doneT ++ (val ++ t2) ++ suf =
                (doneH ++ beBytes 32 off) ++ h1 ++ (doneT ++ val) ++ t2 ++ suf := by
              simp [List.append_assoc]
            have hlensum : (doneH ++ (beBytes 32 off ++ h1) ++ doneT ++ (val ++ t2) ++
                suf).length =
                doneH.length + (32 + h1.length) + doneT.length +
                  (val.length + t2.length) + suf.length := by
              simp [List.length_append, beBytes_length]
              omega
            have hup : unpackAt doneH.length f
                (doneH ++ (beBytes 32 off ++ h1) ++ doneT ++ (val ++ t2) ++ suf) =
                .ok v := by
              refine (hrtf v val hconf.1 hpv).2 hdynb _ doneH.length off (t2 ++ suf)
                ?_ ?_ ?_ ?_
              · exact hlt
              · rw [hlensum]; omega
              · rw [hreg1, List.drop_left]
                rw [List.append_assoc]
                exact List.take_left' (beBytes_length 32 off)
              · rw [hreg2]
                refine List.drop_left' ?_
                simp [List.length_append, beBytes_length]
                omega
            have harg : packFields es' vs'
                ((doneH ++ beBytes 32 off).length + h1.length + (doneT ++ val).length) =
                .ok (h1, t2) := by
              have heq : (doneH ++ beBytes 32 off).length + h1.length +
                  (doneT ++ val).length =
                  doneH.length + (32 + h1.length) + doneT.length + val.length := by
                simp [List.length_append, beBytes_length]
                omega
              rw [heq]
              exact hrest
            have hlt2 : ((doneH ++ beBytes 32 off) ++ h1 ++ (doneT ++ val) ++ t2 ++
                suf).length < 2 ^ 63 := by
              rw [← hreg3]
              exact hlt
            have hslot2 : (doneH ++ beBytes 32 off).length = (slot + 1) * 32 := by
              simp [List.length_append, beBytes_length]
              omega
            have hih := ih (fun x hx => hwfall x (by simp [hx]))
              (fun x hx => hrt x (by simp [hx])) vs' (doneH ++ beBytes 32 off) h1
              (doneT ++ val) t2 suf (slot + 1) hconf.2 harg hlt2 hslot2
            simp only [unpackTuple]
            rw [← hslot]
            rw [hup]
            simp only []
            rw [slotAdvance_dyn f slot hdynb]
            rw [hreg3]
            rw [hih]
        · have hstatb : isDynamicType f = false := by
            cases hh : isDynamicType f
            · rfl
            · exact absurd hh hdynb
          rw [if_neg hdynb] at hp
          cases hrest : packFields es' vs'
              (doneH.length + Hrem.length + doneT.length) with
          | error err => rw [hrest] at hp; exact Except.noConfusion hp
          | ok ht =>
            obtain ⟨h1, t2⟩ := ht
            rw [hrest] at hp
            simp only [] at hp
            rw [Except.ok.injEq, Prod.mk.injEq] at hp
            obtain ⟨hH, hT⟩ := hp
            have hvlen : val.length = getTypeSize f :=
              packValue_static_length f hwff hnzf v val hconf.1 hpv hstatb
            have hHlen : Hrem.length = getTypeSize f + h1.length := by
              rw [← hH]
              simp [List.length_append, hvlen]
            rw [hHlen] at hrest
            subst hH
            subst hT
            have hreg1 : doneH ++ (val ++ h1) ++ doneT ++ t2 ++ suf =
                doneH ++ val ++ (h1 ++ (doneT ++ (t2 ++ suf))) := by
              simp [List.append_assoc]
            have hreg3 : doneH ++ (val ++ h1) ++ doneT ++ t2 ++ suf =
                (doneH ++ val) ++ h1 ++ doneT ++ t2 ++ suf := by
              simp [List.append_assoc]
            have hup : unpackAt doneH.length f
                (doneH ++ (val ++ h1) ++ doneT ++ t2 ++ suf) = .ok v := by
              have hs := (hrtf v val hconf.1 hpv).1 hstatb doneH
                (h1 ++ (doneT ++ (t2 ++ suf)))
              rw [hreg1]
              refine hs ?_
              rw [← hreg1]
              exact hlt
            have harg : packFields es' vs'
                ((doneH ++ val).length + h1.length + doneT.length) = .ok (h1, t2) := by
              have heq : (doneH ++ val).length + h1.length + doneT.length =
                  doneH.length + (getTypeSize f + h1.length) + doneT.length := by
                simp [List.length_append, hvlen]
                omega
              rw [heq]
              exact hrest
            have hlt2 : ((doneH ++ val) ++ h1 ++ doneT ++ t2 ++ suf).length < 2 ^ 63 := by
              rw [← hreg3]
              exact hlt
            have hslot2 : (doneH ++ val).length = slotAdvance f slot * 32 := by
              rw [slotAdvance_static f slot hstatb hwff hnzf]
              simp [List.length_append, hvlen]
              omega
            have hih := ih (fun x hx => hwfall x (by simp [hx]))
              (fun x hx => hrt x (by simp [hx])) vs' (doneH ++ val) h1
              doneT t2 suf (slotAdvance f slot) hconf.2 harg hlt2 hslot2
            simp only [unpackTuple]
            rw [← hslot]
            rw [hup]
            simp only []
            rw [hreg3]
            rw [hih]

theorem lengthPrefixPointsTo_of_layout (output : List Nat) (index p cnt : Nat)
    (rest suf : List Nat)
    (hout : output.length < 2 ^ 63)
    (hwin : (output.drop index).take 32 = beBytes 32 p)
    (hdropp : output.drop p = beBytes 32 cnt ++ (rest ++ suf))
    (hcnt : cnt ≤ rest.length) :
    lengthPrefixPointsTo index output = .ok (p + 32, cnt) := by
  have hsplit := drop_split_length output p (beBytes 32 cnt) (rest ++ suf) hdropp
    (by rw [beBytes_length]; omega)
  rw [beBytes_length, List.length_append] at hsplit
  simp only [lengthPrefixPointsTo]
  rw [hwin]
  rw [show deBytes (beBytes 32 p) = p from by
    rw [deBytes_beBytes, pow256_32]; omega]
  rw [show p + 32 - 32 = p from by omega]
  rw [hdropp]
  rw [show (beBytes 32 cnt ++ (rest ++ suf)).take 32 = beBytes 32 cnt from
    List.take_left' (beBytes_length 32 cnt)]
  rw [show deBytes (beBytes 32 cnt) = cnt from by
    rw [deBytes_beBytes, pow256_32]; omega]
  rw [if_neg (by omega), if_neg (by omega), if_neg (by omega), if_neg (by omega)]

theorem tuplePointsTo_of_layout (output : List Nat) (index p : Nat)
    (enc suf : List Nat)
    (hout : output.length < 2 ^ 63)
    (hwin : (output.drop index).take 32 = beBytes 32 p)
    (hdropp : output.drop p = enc ++ suf)
    (hpos : 0 < enc.length) :
    tuplePointsTo index output = .ok p := by
  have hsplit := drop_split_length output p enc suf hdropp hpos
  simp only [tuplePointsTo]
  rw [hwin]
  rw [show deBytes (beBytes 32 p) = p from by
    rw [deBytes_beBytes, pow256_32]; omega]
  rw [if_neg (by omega), if_neg (by omega)]

theorem unpack_pack_aux :
    ∀ n t, sizeOf t ≤ n → wfType t = true → noZeroSized t = true →
      ∀ v enc, conforms v t = true → packValue t v = .ok enc →
        (isDynamicType t = false → StaticRT t v enc) ∧
        (isDynamicType t = true → DynRT t v enc) := by
  intro n
  induction n with
  | zero => intro t ht; exact absurd (lt_of_lt_of_le (sizeOf_pos t) ht) (by omega)
  | succ n ih =>
    intro t ht hwf hnz v enc hconf hc
    cases t with
    | uint s =>
      refine ⟨fun _ => ?_, fun hd => Bool.noConfusion hd⟩
      cases v <;> try exact Bool.noConfusion hconf
      case vUint m =>
      rw [conforms] at hconf
      simp at hconf
      rw [wfType] at hwf
      simp at hwf
      simp [packValue, typeCheckV, packElement] at hc
      subst hc
      intro pre suf hlt
      simp only [unpackAt]
      rw [if_neg (by simp [List.length_append, beBytes_length]; try omega)]
      rw [List.append_assoc, List.drop_left]
      rw [List.take_left' (beBytes_length 32 m)]
      exact readInteger_uint s m hconf hwf.1.2
    | int s =>
      refine ⟨fun _ => ?_, fun hd => Bool.noConfusion hd⟩
      cases v <;> try exact Bool.noConfusion hconf
      case vInt i =>
      rw [conforms] at hconf
      simp at hconf
      rw [wfType] at hwf
      simp at hwf
      simp [packValue, typeCheckV, packElement] at hc
      subst hc
      intro pre suf hlt
      simp only [unpackAt]
      rw [if_neg (by simp [List.length_append, beBytes_length]; try omega)]
      rw [List.append_assoc, List.drop_left]
      rw [List.take_left' (beBytes_length 32 (u256OfInt i))]
      exact readInteger_int s i hconf.1 hconf.2 hwf.1.1 hwf.1.2
    | bool =>
      refine ⟨fun _ => ?_, fun hd => Bool.noConfusion hd⟩
      cases v <;> try exact Bool.noConfusion hconf
      case vBool b =>
      simp [packValue, typeCheckV, packElement] at hc
      subst hc
      intro pre suf hlt
      simp only [unpackAt]
      rw [if_neg (by simp [List.length_append, beBytes_length]; try omega)]
      rw [List.append_assoc, List.drop_left]
      rw [List.take_left' (beBytes_length 32 _)]
      exact readBool_rt b
    | address =>
      refine ⟨fun _ => ?_, fun hd => Bool.noConfusion hd⟩
      cases v <;> try exact Bool.noConfusion hconf
      case vAddress bs =>
      rw [conforms] at hconf
      simp at hconf
      simp [packValue, typeCheckV, packElement] at hc
      subst hc
      have hl32 : (leftPad bs 32).length = 32 := by
        rw [leftPad_length, hconf.1]
        decide
      intro pre suf hlt
      simp only [unpackAt]
      rw [if_neg (by simp [List.length_append, hl32]; try omega)]
      rw [List.append_assoc, List.drop_left]
      rw [List.take_left' hl32]
      rw [leftPad_drop12 bs hconf.1]
    | fixedBytes s =>
      refine ⟨fun _ => ?_, fun hd => Bool.noConfusion hd⟩
      cases v <;> try exact Bool.noConfusion hconf
      case vFixedBytes bs =>
      rw [conforms] at hconf
      simp at hconf
      rw [wfType] at hwf
      simp at hwf
      simp [packValue, typeCheckV, packElement, hconf.1] at hc
      subst hc
      have hr32 : (rightPad bs 32).length = 32 := by
        rw [rightPad_length, hconf.1]
        omega
      intro pre suf hlt
      simp only [unpackAt]
      rw [if_neg (by simp [List.length_append, hr32]; try omega)]
      rw [List.append_assoc, List.drop_left]
      rw [List.take_left' hr32]
      exact readFixedBytes_rt s bs hconf.1 (by omega)
    | function =>
      refine ⟨fun _ => ?_, fun hd => Bool.noConfusion hd⟩
      cases v <;> try exact Bool.noConfusion hconf
      case vFunction bs =>
      rw [conforms] at hconf
      simp at hconf
      simp [packValue, typeCheckV, packElement] at hc
      subst hc
      have hr32 : (rightPad bs 32).length = 32 := by
        rw [rightPad_length, hconf.1]
        decide
      intro pre suf hlt
      simp only [unpackAt]
      rw [if_neg (by simp [List.length_append, hr32]; try omega)]
      rw [List.append_assoc, List.drop_left]
      rw [List.take_left' hr32]
      exact readFunctionType_rt bs hconf.1
    | string =>
      refine ⟨fun hs => Bool.noConfusion hs, fun _ => ?_⟩
      cases v <;> try exact Bool.noConfusion hconf
      case vString str =>
      simp [packValue, typeCheckV, packElement] at hc
      subst hc
      intro output index p suf hout hidx hwin hdropp
      have hpb : packBytesSlice str str.length =
          beBytes 32 str.length ++ rightPad str ((str.length + 31) / 32 * 32) := rfl
      have hrp : str.length ≤ (rightPad str ((str.length + 31) / 32 * 32)).length := by
        rw [rightPad_length]
        omega
      have hdropp2 : output.drop p = beBytes 32 str.length ++
          (rightPad str ((str.length + 31) / 32 * 32) ++ suf) := by
        rw [hdropp, hpb, List.append_assoc]
      have hllp := lengthPrefixPointsTo_of_layout output index p str.length _ suf
        hout hwin hdropp2 hrp
      simp only [unpackAt]
      rw [if_neg (by omega)]
      rw [hllp]
      simp only []
      have hdrop32 : output.drop (p + 32) =
          rightPad str ((str.length + 31) / 32 * 32) ++ suf :=
        drop_concat_at output _ p 32 (beBytes 32 str.length) hdropp2
          (beBytes_length 32 _)
      rw [hdrop32]
      rw [List.take_append_of_le_length hrp]
      rw [rightPad_take]
    | bytes =>
      refine ⟨fun hs => Bool.noConfusion hs, fun _ => ?_⟩
      cases v <;> try exact Bool.noConfusion hconf
      case vBytes bts =>
      simp [packValue, typeCheckV, packElement] at hc
      subst hc
      intro output index p suf hout hidx hwin hdropp
      have hpb : packBytesSlice bts bts.length =
          beBytes 32 bts.length ++ rightPad bts ((bts.length + 31) / 32 * 32) := rfl
      have hrp : bts.length ≤ (rightPad bts ((bts.length + 31) / 32 * 32)).length := by
        rw [rightPad_length]
        omega
      have hdropp2 : output.drop p = beBytes 32 bts.length ++
          (rightPad bts ((bts.length + 31) / 32 * 32) ++ suf) := by
        rw [hdropp, hpb, List.append_assoc]
      have hllp := lengthPrefixPointsTo_of_layout output index p bts.length _ suf
        hout hwin hdropp2 hrp
      simp only [unpackAt]
      rw [if_neg (by omega)]
      rw [hllp]
      simp only []
      have hdrop32 : output.drop (p + 32) =
          rightPad bts ((bts.length + 31) / 32 * 32) ++ suf :=
        drop_concat_at output _ p 32 (beBytes 32 bts.length) hdropp2
          (beBytes_length 32 _)
      rw [hdrop32]
      rw [List.take_append_of_le_length hrp]
      rw [rightPad_take]
    | slice e =>
      refine ⟨fun hs => Bool.noConfusion hs, fun _ => ?_⟩
      cases v <;> try exact Bool.noConfusion hconf
      case vList vs =>
      rw [conforms] at hconf
      rw [wfType] at hwf
      rw [noZeroSized] at hnz
      have hse : sizeOf e ≤ n := by
        have := AbiType.slice.sizeOf_spec e
        omega
      have hrte := ih e hse hwf hnz
      have hlene := packValue_static_length e hwf hnz
      have hgb := gts_bounds (sizeOf e) e (Nat.le_refl _) hwf hnz
      simp [packValue, typeCheckV] at hc
      cases hpe : packElems e vs (getTypeSize e * vs.length) with
      | error err =>
        simp only [hpe] at hc
        exact Except.noConfusion hc
      | ok ht =>
        obtain ⟨H1, T1⟩ := ht
        simp only [hpe] at hc
        rw [Except.ok.injEq] at hc
        subst hc
        have hHl := packElems_lengths e hlene vs (getTypeSize e * vs.length)
          H1 T1 hconf hpe
        intro output index p suf hout hidx hwin hdropp
        have hdropp2 : output.drop p =
            beBytes 32 vs.length ++ (H1 ++ (T1 ++ suf)) := by
          rw [hdropp]
          simp [List.append_assoc]
        have hcntle : vs.length ≤ H1.length := by
          rw [hHl.1]
          exact Nat.le_mul_of_pos_left vs.length (by omega)
        have hdropp3 : output.drop p =
            beBytes 32 vs.length ++ ((H1 ++ T1) ++ suf) := by
          rw [hdropp2]
          simp [List.append_assoc]
        have hcntle2 : vs.length ≤ (H1 ++ T1).length := by
          rw [List.length_append]
          omega
        have hllp := lengthPrefixPointsTo_of_layout output index p vs.length
          (H1 ++ T1) suf hout hwin hdropp3 hcntle2
        simp only [unpackAt]
        rw [if_neg (by omega)]
        rw [hllp]
        simp only []
        have hdrop32 : output.drop (p + 32) = H1 ++ (T1 ++ suf) :=
          drop_concat_at output _ p 32 (beBytes 32 vs.length) hdropp2
            (beBytes_length 32 _)
        rw [hdrop32]
        simp only [unpackElems]
        have hb32 : 32 * vs.length ≤ H1.length := by
          rw [hHl.1]
          exact Nat.mul_le_mul_right vs.length hgb.1
        rw [if_neg (by simp [List.length_append]; omega)]
        have hloopregion : ([] : List Nat) ++ H1 ++ [] ++ T1 ++ suf =
            H1 ++ (T1 ++ suf) := by simp
        have harg : packElems e vs
            (([] : List Nat).length + H1.length + ([] : List Nat).length) =
            .ok (H1, T1) := by
          rw [show (([] : List Nat).length + H1.length + ([] : List Nat).length) =
            getTypeSize e * vs.length from by simp [hHl.1]]
          exact hpe
        have hltr : (([] : List Nat) ++ H1 ++ [] ++ T1 ++ suf).length < 2 ^ 63 := by
          rw [hloopregion, ← hdrop32, List.length_drop]
          omega
        have hloop := unpackElemsLoop_rt e hrte hlene vs [] H1 [] T1 suf hconf
          harg hltr
        rw [hloopregion] at hloop
        rw [show (([] : List Nat)).length = 0 from rfl] at hloop
        rw [hloop]
    | array sz e =>
      cases v <;> try exact Bool.noConfusion hconf
      case vList vs =>
      rw [conforms] at hconf
      simp at hconf
      rw [wfType] at hwf
      simp at hwf
      rw [noZeroSized] at hnz
      have hse : sizeOf e ≤ n := by
        have := AbiType.array.sizeOf_spec sz e
        omega
      have hrte := ih e hse hwf.2 hnz
      have hlene := packValue_static_length e hwf.2 hnz
      have hgb := gts_bounds (sizeOf e) e (Nat.le_refl _) hwf.2 hnz
      have hvs1 : 1 ≤ vs.length := by omega
      simp [packValue, typeCheckV, hconf.1] at hc
      cases hpe : packElems e vs (getTypeSize e * sz) with
      | error err =>
        simp only [hpe] at hc
        exact Except.noConfusion hc
      | ok ht =>
        obtain ⟨H1, T1⟩ := ht
        simp only [hpe] at hc
        rw [Except.ok.injEq] at hc
        subst hc
        have harg0 : packElems e vs (getTypeSize e * vs.length) = .ok (H1, T1) := by
          rw [hconf.1]
          exact hpe
        have hHl := packElems_lengths e hlene vs (getTypeSize e * vs.length)
          H1 T1 hconf.2 harg0
        have hb32 : 32 * vs.length ≤ H1.length := by
          rw [hHl.1]
          exact Nat.mul_le_mul_right vs.length hgb.1
        have h32H : 32 ≤ H1.length := by
          have : 32 * 1 ≤ 32 * vs.length := Nat.mul_le_mul_left 32 hvs1
          omega
        constructor
        · intro hstat
          have hde : isDynamicType e = false := by
            rw [isDynamicType] at hstat
            exact hstat
          have hT1 : T1 = [] := hHl.2 hde
          subst hT1
          intro pre suf hlt
          simp only [unpackAt]
          rw [if_neg (by simp [List.length_append]; omega)]
          rw [hde, if_neg (fun h => Bool.noConfusion h)]
          have hdropped : (pre ++ (H1 ++ []) ++ suf).drop pre.length = H1 ++ suf := by
            rw [List.append_assoc, List.drop_left]
            simp
          rw [hdropped]
          simp only [unpackElems]
          have hb32s : 32 * sz ≤ H1.length := by
            rw [← hconf.1]
            exact hb32
          rw [if_neg (by simp [List.length_append]; omega)]
          rw [show sz = vs.length from hconf.1.symm]
          have hloopregion : ([] : List Nat) ++ H1 ++ [] ++ [] ++ suf = H1 ++ suf := by
            simp
          have harg : packElems e vs
              (([] : List Nat).length + H1.length + ([] : List Nat).length) =
              .ok (H1, []) := by
            rw [show (([] : List Nat).length + H1.length + ([] : List Nat).length) =
              getTypeSize e * vs.length from by simp [hHl.1]]
            exact harg0
          have hltr : (([] : List Nat) ++ H1 ++ [] ++ [] ++ suf).length < 2 ^ 63 := by
            rw [hloopregion]
            simp only [List.length_append] at hlt ⊢
            simp at hlt
            omega
          have hloop := unpackElemsLoop_rt e hrte hlene vs [] H1 [] [] suf hconf.2
            harg hltr
          rw [hloopregion] at hloop
          rw [show (([] : List Nat)).length = 0 from rfl] at hloop
          rw [hloop]
        · intro hdynt
          have hde : isDynamicType e = true := by
            rw [isDynamicType] at hdynt
            exact hdynt
          intro output index p suf hout hidx hwin hdropp
          have hsplit := drop_split_length output p (H1 ++ T1) suf hdropp
            (by rw [List.length_append]; omega)
          simp only [unpackAt]
          rw [if_neg (by omega)]
          rw [hde, if_pos rfl]
          rw [hwin]
          rw [beBytes_drop24]
          rw [show deBytes (beBytes 8 p) = p from by
            rw [deBytes_beBytes]
            rw [show (256 : Nat) ^ 8 = 2 ^ 64 from by norm_num]
            exact Nat.mod_eq_of_lt (by omega)]
          rw [if_neg (by omega)]
          have hdropp2 : output.drop p = H1 ++ (T1 ++ suf) := by
            rw [hdropp]
            simp [List.append_assoc]
          rw [hdropp2]
          simp only [unpackElems]
          have hb32s : 32 * sz ≤ H1.length := by
            rw [← hconf.1]
            exact hb32
          rw [if_neg (by simp [List.length_append]; omega)]
          rw [show sz = vs.length from hconf.1.symm]
          have hloopregion : ([] : List Nat) ++ H1 ++ [] ++ T1 ++ suf =
              H1 ++ (T1 ++ suf) := by
            simp
          have harg : packElems e vs
              (([] : List Nat).length + H1.length + ([] : List Nat).length) =
              .ok (H1, T1) := by
            rw [show (([] : List Nat).length + H1.length + ([] : List Nat).length) =
              getTypeSize e * vs.length from by simp [hHl.1]]
            exact harg0
          have hltr : (([] : List Nat) ++ H1 ++ [] ++ T1 ++ suf).length < 2 ^ 63 := by
            rw [hloopregion, ← hdropp2, List.length_drop]
            omega
          have hloop := unpackElemsLoop_rt e hrte hlene vs [] H1 [] T1 suf hconf.2
            harg hltr
          rw [hloopregion] at hloop
          rw [show (([] : List Nat)).length = 0 from rfl] at hloop
          rw [hloop]
    | tuple es =>
      cases v <;> try exact Bool.noConfusion hconf
      case vTuple vs =>
      rw [conforms] at hconf
      rw [wfType] at hwf
      have hwfall : ∀ x ∈ es, wfType x = true ∧ noZeroSized x = true :=
        fun x hx => ⟨wfTypeAll_mem es hwf x hx, noZeroSized_tuple_mem es hnz x hx⟩
      have hszx : ∀ x ∈ es, sizeOf x ≤ n := by
        intro x hx
        have h1 := List.sizeOf_lt_of_mem hx
        have h2 := AbiType.tuple.sizeOf_spec es
        omega
      have hrtall : ∀ x ∈ es, ∀ v enc, conforms v x = true → packValue x v = .ok enc →
          (isDynamicType x = false → StaticRT x v enc) ∧
          (isDynamicType x = true → DynRT x v enc) :=
        fun x hx => ih x (hszx x hx) (hwfall x hx).1 (hwfall x hx).2
      have hlenall : ∀ x ∈ es, ∀ v enc, conforms v x = true → packValue x v = .ok enc →
          isDynamicType x = false → enc.length = getTypeSize x :=
        fun x hx => packValue_static_length x (hwfall x hx).1 (hwfall x hx).2
      have hne : es ≠ [] := noZeroSized_tuple_ne_nil es hnz
      have hsum : 32 ≤ sumTypeSizes es ∧ sumTypeSizes es % 32 = 0 :=
        sumTypeSizes_bounds es hne (fun x hx =>
          gts_bounds (sizeOf x) x (Nat.le_refl _) (hwfall x hx).1 (hwfall x hx).2)
      simp [packValue, typeCheckV] at hc
      cases hpf : packFields es vs (sumTypeSizes es) with
      | error err =>
        simp only [hpf] at hc
        exact Except.noConfusion hc
      | ok ht =>
        obtain ⟨Hf, Tf⟩ := ht
        simp only [hpf] at hc
        rw [Except.ok.injEq] at hc
        subst hc
        have hHl := packFields_lengths es hlenall vs (sumTypeSizes es) Hf Tf hconf hpf
        have h32H : 32 ≤ Hf.length := by
          rw [hHl.1]
          exact hsum.1
        constructor
        · intro hstat
          have hany : anyDynamic es = false := by
            rw [isDynamicType] at hstat
            exact hstat
          have hTf : Tf = [] := hHl.2 hany
          subst hTf
          intro pre suf hlt
          simp only [unpackAt]
          rw [if_neg (by simp [List.length_append]; omega)]
          rw [hstat, if_neg (fun h => Bool.noConfusion h)]
          have hdropped : (pre ++ (Hf ++ []) ++ suf).drop pre.length = Hf ++ suf := by
            rw [List.append_assoc, List.drop_left]
            simp
          rw [hdropped]
          have hloopregion : ([] : List Nat) ++ Hf ++ [] ++ [] ++ suf = Hf ++ suf := by
            simp
          have harg : packFields es vs
              (([] : List Nat).length + Hf.length + ([] : List Nat).length) =
              .ok (Hf, []) := by
            rw [show (([] : List Nat).length + Hf.length + ([] : List Nat).length) =
              sumTypeSizes es from by simp [hHl.1]]
            exact hpf
          have hltr : (([] : List Nat) ++ Hf ++ [] ++ [] ++ suf).length < 2 ^ 63 := by
            rw [hloopregion]
            simp only [List.length_append] at hlt ⊢
            simp at hlt
            omega
          have hloop := unpackTuple_rt es hwfall hrtall vs [] Hf [] [] suf 0 hconf
            harg hltr rfl
          rw [hloopregion] at hloop
          rw [hloop]
        · intro hdynt
          intro output index p suf hout hidx hwin hdropp
          have hsplit := drop_split_length output p (Hf ++ Tf) suf hdropp
            (by rw [List.length_append]; omega)
          simp only [unpackAt]
          rw [if_neg (by omega)]
          rw [hdynt, if_pos rfl]
          have htp := tuplePointsTo_of_layout output index p (Hf ++ Tf) suf hout hwin
            hdropp (by rw [List.length_append]; omega)
          rw [htp]
          simp only []
          have hdropp2 : output.drop p = Hf ++ (Tf ++ suf) := by
            rw [hdropp]
            simp [List.append_assoc]
          rw [hdropp2]
          have hloopregion : ([] : List Nat) ++ Hf ++ [] ++ Tf ++ suf =
              Hf ++ (Tf ++ suf) := by
            simp
          have harg : packFields es vs
              (([] : List Nat).length + Hf.length + ([] : List Nat).length) =
              .ok (Hf, Tf) := by
            rw [show (([] : List Nat).length + Hf.length + ([] : List Nat).length) =
              sumTypeSizes es from by simp [hHl.1]]
            exact hpf
          have hltr : (([] : List Nat) ++ Hf ++ [] ++ Tf ++ suf).length < 2 ^ 63 := by
            rw [hloopregion, ← hdropp2, List.length_drop]
            omega
          have hloop := unpackTuple_rt es hwfall hrtall vs [] Hf [] Tf suf 0 hconf
            harg hltr rfl
          rw [hloopregion] at hloop
          rw [hloop]

theorem argsHeadSize_eq (args : List Argument) :
    argsHeadSize args = sumTypeSizes (args.map (fun a => a.type)) := by
  induction args with
  | nil => rfl
  | cons a rest ih =>
    rw [argsHeadSize, List.map_cons, sumTypeSizes, ih]

theorem unpackArgsLoop_eq_tuple (args : List Argument)
    (hni : ∀ a ∈ args, a.indexed = false) :
    ∀ (data : List Nat) (slot : Nat),
      unpackArgsLoop args data slot =
        unpackTuple (args.map (fun a => a.type)) data slot := by
  induction args with
  | nil =>
    intro data slot
    simp only [unpackArgsLoop, List.map_nil, unpackTuple]
  | cons a rest ih =>
    intro data slot
    have hia : a.indexed = false := hni a (by simp)
    rw [unpackArgsLoop, hia, if_neg (fun h => Bool.noConfusion h)]
    rw [List.map_cons]
    simp only [unpackTuple]
    cases hu : unpackAt (slot * 32) a.type data with
    | error err => rfl
    | ok v =>
      simp only []
      rw [ih (fun x hx => hni x (by simp [hx])) data (slotAdvance a.type slot)]

/-- Claim C1 (amended): the round trip holds at the argument-list level
for every argument list without indexed arguments whose types satisfy
the data-model invariants of §3 and contain no zero-field tuple, for
every conforming value list, provided the encoding is shorter than
2^63 bytes: `Arguments.Unpack` on the output of `Arguments.Pack`
succeeds and returns exactly the packed values (big integers and
machine integers both decode to the integer value model, and slices and
arrays both decode to the list value model).  A zero-field tuple breaks
the round trip (see the counterexample): it packs to zero bytes, and
unpacking an empty byte string with a non-indexed argument present is
the empty-input error. -/
theorem c1_round_trip :
    ∀ (args : List Argument) (vals : List Value) (data : List Nat),
      (∀ a ∈ args, a.indexed = false) →
      (∀ a ∈ args, wfType a.type = true ∧ noZeroSized a.type = true) →
      conformsZip vals (args.map (fun a => a.type)) = true →
      argumentsPack args vals = .ok data →
      data.length < 2 ^ 63 →
      argumentsUnpack args data = .ok vals := by
  intro args vals data hni hwf hconf hp hlt
  rw [argumentsPack] at hp
  by_cases harity : vals.length ≠ args.length
  · rw [if_pos harity] at hp
    exact Except.noConfusion hp
  · rw [if_neg harity] at hp
    cases hpf : packFields (args.map (fun a => a.type)) vals (argsHeadSize args) with
    | error e =>
      rw [hpf] at hp
      exact Except.noConfusion hp
    | ok ht =>
      obtain ⟨Hf, Tf⟩ := ht
      rw [hpf] at hp
      simp only [] at hp
      rw [Except.ok.injEq] at hp
      subst hp
      cases args with
      | nil =>
        have hv : vals = [] := by
          simp at harity
          exact harity
        subst hv
        rw [List.map_nil, packFields] at hpf
        rw [Except.ok.injEq] at hpf
        injection hpf with h1 h2
        subst h1; subst h2
        rfl
      | cons a rest =>
        have hwfall : ∀ x ∈ (a :: rest).map (fun a => a.type),
            wfType x = true ∧ noZeroSized x = true := by
          intro x hx
          rw [List.mem_map] at hx
          obtain ⟨arg, harg, rfl⟩ := hx
          exact hwf arg harg
        have hlenall : ∀ x ∈ (a :: rest).map (fun a => a.type),
            ∀ v enc, conforms v x = true → packValue x v = .ok enc →
            isDynamicType x = false → enc.length = getTypeSize x :=
          fun x hx => packValue_static_length x (hwfall x hx).1 (hwfall x hx).2
        have hrtall : ∀ x ∈ (a :: rest).map (fun a => a.type),
            ∀ v enc, conforms v x = true → packValue x v = .ok enc →
            (isDynamicType x = false → StaticRT x v enc) ∧
            (isDynamicType x = true → DynRT x v enc) :=
          fun x hx => unpack_pack_aux (sizeOf x) x (Nat.le_refl _)
            (hwfall x hx).1 (hwfall x hx).2
        have hne : (a :: rest).map (fun a => a.type) ≠ [] := by simp
        have hsum := sumTypeSizes_bounds ((a :: rest).map (fun a => a.type)) hne
          (fun x hx => gts_bounds (sizeOf x) x (Nat.le_refl _)
            (hwfall x hx).1 (hwfall x hx).2)
        have hHl := packFields_lengths ((a :: rest).map (fun a => a.type)) hlenall
          vals (argsHeadSize (a :: rest)) Hf Tf hconf hpf
        have h32H : 32 ≤ Hf.length := by
          rw [hHl.1]
          exact hsum.1
        rw [argumentsUnpack]
        rw [if_neg (by rw [List.length_append]; omega)]
        rw [argumentsUnpackValues]
        rw [unpackArgsLoop_eq_tuple (a :: rest) hni]
        have hloopregion : ([] : List Nat) ++ Hf ++ [] ++ Tf ++ [] = Hf ++ Tf := by
          simp
        have harg : packFields ((a :: rest).map (fun a => a.type)) vals
            (([] : List Nat).length + Hf.length + ([] : List Nat).length) =
            .ok (Hf, Tf) := by
          rw [show (([] : List Nat).length + Hf.length + ([] : List Nat).length) =
            argsHeadSize (a :: rest) from by simp [hHl.1, argsHeadSize_eq]]
          exact hpf
        have hltr : (([] : List Nat) ++ Hf ++ [] ++ Tf ++ []).length < 2 ^ 63 := by
          rw [hloopregion]
          exact hlt
        have hloop := unpackTuple_rt ((a :: rest).map (fun a => a.type)) hwfall
          hrtall vals [] Hf [] Tf [] 0 hconf harg hltr rfl
        rw [hloopregion] at hloop
        exact hloop

theorem c1_pack_eval : argumentsPack c1args c1vals = .ok c1data := by
  simp [c1args, c1vals, c1data, argumentsPack, argsHeadSize, packFields, packValue,
    typeCheckV, packElement, getTypeSize, isDynamicType, packBytesSlice, rightPad,
    beBytes, deBytes]

theorem c1_round_trip_witness :
    argumentsPack c1args c1vals = .ok c1data ∧
    argumentsUnpack c1args c1data = .ok c1vals :=
  ⟨c1_pack_eval,
   c1_round_trip c1args c1vals c1data (by decide)
     (by simp [c1args, wfType, noZeroSized]) (by decide)
     c1_pack_eval (by decide)⟩

/-- Claim C1, counterexample: the unrestricted round trip fails.  The
zero-field tuple type is accepted by the type checker for the empty
struct value and packs to the empty byte string, but `Arguments.Unpack`
on the empty byte string with one non-indexed argument expected returns
the empty-input error instead of the packed value. -/
theorem c1_counterexample :
    conforms (.vTuple []) (.tuple []) = true ∧
    argumentsPack [⟨[], .tuple [], false⟩] [.vTuple []] = .ok [] ∧
    argumentsUnpack [⟨[], .tuple [], false⟩] [] = .error .emptyInput := by
  refine ⟨by decide, ?_, by rfl⟩
  simp [argumentsPack, argsHeadSize, packFields, packValue, typeCheckV,
    getTypeSize, sumTypeSizes, isDynamicType, anyDynamic]

